import Mathlib

/-!
Shallow embedding of the AI-generation orchestration layer of the devflow CLI
(the `CopilotService` class of the source repository).  Strings are modelled as
`List Char`; JavaScript regular-expression operations are modelled by explicit
recursive functions implementing the engine's leftmost-match/backtracking
semantics for the concrete patterns appearing in the source.  Subprocess and
filesystem effects are modelled by explicit parameters: an invoker stub
`Str → InvocationResult` stands for one `execCopilotPrompt` subprocess call,
and a directory listing stands for the Copilot log directory.
-/

abbrev Str := List Char

/-- Characters of the JS `\s` class (also the set removed by `String.prototype.trim`). -/
def isJsWs (c : Char) : Bool :=
  c == ' ' || c == '\t' || c == '\n' || c == '\r' || c == '\x0b' || c == '\x0c' ||
  c == '\u00A0' || c == '\u1680' ||
  (decide (0x2000 ≤ c.toNat) && decide (c.toNat ≤ 0x200a)) ||
  c == '\u2028' || c == '\u2029' || c == '\u202F' || c == '\u205F' ||
  c == '\u3000' || c == '\uFEFF'

/-- Line terminators: the characters NOT matched by the JS regex `.` (without `/s`). -/
def isLineTerm (c : Char) : Bool :=
  c == '\n' || c == '\r' || c == '\u2028' || c == '\u2029'

/-- `String.prototype.trim`. -/
def jsTrim (s : Str) : Str :=
  ((s.dropWhile isJsWs).reverse.dropWhile isJsWs).reverse

/-- ASCII case folding used to model the `/i` regex flag. -/
def lcEq (a b : Char) : Bool := a.toLower == b.toLower

/-- Does `s` start with `pat`, case-insensitively? -/
def startsWithCI : Str → Str → Bool
  | [], _ => true
  | _ :: _, [] => false
  | p :: ps, c :: cs => lcEq p c && startsWithCI ps cs

/-- Does `s` contain `pat` as a contiguous substring, case-insensitively?
Models `/pat/i.test(s)` for a pattern of literal characters. -/
def containsCI (pat : Str) : Str → Bool
  | [] => pat.isEmpty
  | c :: cs => startsWithCI pat (c :: cs) || containsCI pat cs

/-- Does `s` contain `pat` as a contiguous substring (case-sensitive)?
Models `/pat/.test(s)` for a pattern of literal characters. -/
def containsSub (pat : Str) : Str → Bool
  | [] => pat.isEmpty
  | c :: cs => pat.isPrefixOf (c :: cs) || containsSub pat cs

/-- Scan forward for a case-insensitive occurrence of `pat` reachable without
crossing a line terminator; models the `.*pat` tail of a two-part pattern. -/
def scanNoNL (pat : Str) : Str → Bool
  | [] => false
  | c :: cs => startsWithCI pat (c :: cs) || (!isLineTerm c && scanNoNL pat cs)

/-- Models `/p1.*p2/i.test(s)` for patterns of literal characters: some
occurrence of `p1` is followed, on the same line, by an occurrence of `p2`. -/
def twoPartCI (p1 p2 : Str) : Str → Bool
  | [] => false
  | c :: cs =>
    (startsWithCI p1 (c :: cs) && scanNoNL p2 ((c :: cs).drop p1.length)) ||
    twoPartCI p1 p2 cs

/-- `FREE_MODELS`: models included with paid plans. -/
def FREE_MODELS : List Str := ["gpt-4.1".toList, "gpt-5-mini".toList]

/-- `FREE_FALLBACK_MODEL = FREE_MODELS[0]`. -/
def FREE_FALLBACK_MODEL : Str := "gpt-4.1".toList

/-- `isQuotaError`: tests the error message against `QUOTA_ERROR_PATTERNS`
(`/premium request/i`, `/rate limit/i`, `/quota/i`, `/exceeded.*allowance/i`,
`/budget.*reached/i`, `/limit.*reached/i`, `/too many requests/i`, `/429/`). -/
def isQuotaError (msg : Str) : Bool :=
  containsCI ("premium request".toList) msg ||
  containsCI ("rate limit".toList) msg ||
  containsCI ("quota".toList) msg ||
  twoPartCI ("exceeded".toList) ("allowance".toList) msg ||
  twoPartCI ("budget".toList) ("reached".toList) msg ||
  twoPartCI ("limit".toList) ("reached".toList) msg ||
  containsCI ("too many requests".toList) msg ||
  containsSub ("429".toList) msg

/-- Outcome of one `execCopilotPrompt` subprocess invocation: either stdout,
or the message of the thrown error. -/
inductive InvocationResult where
  | success (stdout : Str)
  | failure (message : Str)
deriving DecidableEq

/-- `execWithQuotaRetry`, with the subprocess abstracted as `invoke` (the model
handed to one `execCopilotPrompt` call).  Returns the propagated result
together with the trace of models invoked, in order, one entry per subprocess
invocation. -/
def execWithQuotaRetry (invoke : Str → InvocationResult) (model : Str) :
    InvocationResult × List Str :=
  let isFreeModel := FREE_MODELS.contains model
  match invoke model with
  | .success out => (.success out, [model])
  | .failure e =>
    if isFreeModel then (.failure e, [model])
    else if isQuotaError e then
      (invoke FREE_FALLBACK_MODEL, [model, FREE_FALLBACK_MODEL])
    else (.failure e, [model])

/-- `execCopilotPrompt`'s argument vector: `['--model', model]` when the model
string is non-empty (the `if (model)` guard), then `['-s', '--prompt', prompt]`.
The vector is handed to `execFile` directly — there is no shell command string
anywhere in the invocation, which is what this list-of-arguments model captures. -/
def buildCopilotArgs (prompt model : Str) : List Str :=
  (if model ≠ [] then ["--model".toList, model] else []) ++
    ["-s".toList, "--prompt".toList, prompt]

/-- JS `String.prototype.split` on a single separator character (so splitting
the empty string yields one empty piece). -/
def splitOnChar (sep : Char) : Str → List Str
  | [] => [[]]
  | c :: cs =>
    match splitOnChar sep cs with
    | [] => [[c]]
    | h :: t => if c == sep then [] :: h :: t else (c :: h) :: t

/-- Models `s.replace(/x/g, '')` for a single character `x`. -/
def eraseChar (x : Char) (s : Str) : Str := s.filter (fun c => c != x)

/-- Models `s.replace(/\*\*/g, '')`: leftmost, non-overlapping removal of `**`. -/
def eraseDoubleStar : Str → Str
  | '*' :: '*' :: rest => eraseDoubleStar rest
  | c :: rest => c :: eraseDoubleStar rest
  | [] => []

/-- The one-shot anchored replace `s.replace(/^[-•]\s+/, '')`. -/
def dropLeadMarker (t : Str) : Str :=
  match t with
  | [] => []
  | c :: rest =>
    if (c == '-' || c == '•') && !(rest.takeWhile isJsWs).isEmpty then
      rest.drop (rest.takeWhile isJsWs).length
    else c :: rest

/-- `stripMarkdown`: remove `**`, then `*`, then backticks, then one leading
list marker, then trim. -/
def stripMarkdown (t : Str) : Str :=
  jsTrim (dropLeadMarker (eraseChar (Char.ofNat 96) (eraseChar '*' (eraseDoubleStar t))))

/-- `(.+)$` at the end of a JS line: non-empty and free of line terminators. -/
def dotPlusEnd (s : Str) : Option Str :=
  if !s.isEmpty && s.all (fun c => !isLineTerm c) then some s else none

/-- Backtracking for `\s*` followed by `(.+)$`: try dropping `k, k-1, …, 0`
whitespace characters (greedy, longest first). -/
def tryDropK (rest : Str) : Nat → Option Str
  | 0 => dotPlusEnd rest
  | Nat.succ k =>
    match dotPlusEnd (rest.drop (k + 1)) with
    | some r => some r
    | none => tryDropK rest k

/-- Backtracking for `\s+` followed by `(.+)$`: try dropping `k, …, 1`
whitespace characters (at least one must be consumed). -/
def tryDropK1 (rest : Str) : Nat → Option Str
  | 0 => none
  | Nat.succ k =>
    match dotPlusEnd (rest.drop (k + 1)) with
    | some r => some r
    | none => tryDropK1 rest k

/-- Commit pattern 1, `/^\d+[\.)]\s*(.+)$/`: digits, a dot or parenthesis,
optional whitespace, then the capture running to the end of the line. -/
def commitPat1 (l : Str) : Option Str :=
  let ds := l.takeWhile Char.isDigit
  if ds.isEmpty then none
  else
    match l.drop ds.length with
    | [] => none
    | c :: rest =>
      if c == '.' || c == ')' then tryDropK rest (rest.takeWhile isJsWs).length
      else none

/-- The ten type tokens of commit pattern 2. -/
def conventionalTypes : List Str :=
  ["feat", "fix", "docs", "style", "refactor", "test", "chore", "perf", "ci",
    "build"].map String.toList

/-- A literal `": "` followed by at least one `.`-matchable character. -/
def colonSpaceDot (r : Str) : Bool :=
  match r with
  | ':' :: ' ' :: c :: _ => !isLineTerm c
  | _ => false

/-- Scanning for the `\)` of `(\(.+?\))?` followed by `": ."`; skipped
characters belong to the lazy `.+?` and must not be line terminators. -/
def scopeClose : Str → Bool
  | [] => false
  | c :: rest => (c == ')' && colonSpaceDot rest) || (!isLineTerm c && scopeClose rest)

/-- The optional scope `(\(.+?\))?` with a non-empty inside, then `": ."`. -/
def scopeTry : Str → Bool
  | '(' :: c :: rest => !isLineTerm c && scopeClose rest
  | _ => false

/-- Commit pattern 2, `/^(feat|fix|docs|style|refactor|test|chore|perf|ci|build)(\(.+?\))?: .+/i`. -/
def commitPat2 (l : Str) : Bool :=
  conventionalTypes.any fun ty =>
    startsWithCI ty l &&
      (colonSpaceDot (l.drop ty.length) || scopeTry (l.drop ty.length))

/-- Commit pattern 3 head, `/^[-*]\s+(.+)$/`. -/
def commitPat3 (l : Str) : Option Str :=
  match l with
  | [] => none
  | c :: rest =>
    if c == '-' || c == '*' then tryDropK1 rest (rest.takeWhile isJsWs).length
    else none

/-- The seven type tokens accepted for a markdown bullet,
`/^(feat|fix|docs|style|refactor|test|chore)/i`. -/
def bulletTypes : List Str :=
  ["feat", "fix", "docs", "style", "refactor", "test", "chore"].map String.toList

def commitPat3Accept (m : Str) : Bool :=
  bulletTypes.any fun ty => startsWithCI ty m

/-- One iteration of the line loop of `parseCommitMessages`. -/
def parseCommitLine (line : Str) : Option Str :=
  match commitPat1 line with
  | some m => some (stripMarkdown (jsTrim m))
  | none =>
    if commitPat2 line then some (stripMarkdown line)
    else
      match commitPat3 line with
      | some m => if commitPat3Accept m then some (stripMarkdown (jsTrim m)) else none
      | none => none

/-- `parseCommitMessages`: trim and drop blank lines, collect the matches of
the three patterns in order, return at most the first three. -/
def parseCommitMessages (response : Str) : List Str :=
  let lines := ((splitOnChar '\n' response).map jsTrim).filter (fun l => !l.isEmpty)
  (lines.filterMap parseCommitLine).take 3

/-- Count of diff lines starting with `+`. -/
def addedCount (diff : Str) : Nat :=
  ((splitOnChar '\n' diff).filter (fun l => ['+'].isPrefixOf l)).length

/-- Count of diff lines starting with `-`. -/
def removedCount (diff : Str) : Nat :=
  ((splitOnChar '\n' diff).filter (fun l => ['-'].isPrefixOf l)).length

/-- `generateFallbackMessages`: three fixed templates parameterized by the
added/removed line counts. -/
def generateFallbackMessages (diff : Str) : List Str :=
  [ "feat: update files (+".toList ++ (Nat.repr (addedCount diff)).toList ++
      " -".toList ++ (Nat.repr (removedCount diff)).toList ++ [')'],
    "fix: improve code quality".toList,
    "chore: update documentation".toList ]

/-- `generateCommitMessage`, with the outcome of the quota-retry pipeline
supplied as a parameter; `.failure` covers any throw escaping
`execWithQuotaRetry` (the `catch` branch of the source). -/
def generateCommitMessage (o : InvocationResult) (diff : Str) : List Str :=
  match o with
  | .failure _ => generateFallbackMessages diff
  | .success out =>
    let messages := parseCommitMessages out
    if messages.length > 0 then messages else generateFallbackMessages diff

/-- `(.+)` with no end anchor: fails on a line terminator (or end of input),
otherwise captures greedily up to the next line terminator. -/
def dotPlusAny (s : Str) : Option Str :=
  match s with
  | [] => none
  | c :: cs =>
    if isLineTerm c then none
    else some ((c :: cs).takeWhile (fun d => !isLineTerm d))

/-- Backtracking for `\s*` followed by an unanchored `(.+)`: try dropping
`k, k-1, …, 0` whitespace characters (greedy, longest first). -/
def tryCapK (rest : Str) : Nat → Option Str
  | 0 => dotPlusAny rest
  | Nat.succ k =>
    match dotPlusAny (rest.drop (k + 1)) with
    | some r => some r
    | none => tryCapK rest k

/-- Leftmost match of `/TITLE:\s*(.+)/i`, returning the capture. -/
def titleCapture : Str → Option Str
  | [] => none
  | c :: cs =>
    if startsWithCI ("title:".toList) (c :: cs) then
      match tryCapK ((c :: cs).drop 6) (((c :: cs).drop 6).takeWhile isJsWs).length with
      | some cap => some cap
      | none => titleCapture cs
    else titleCapture cs

/-- Backtracking for `\s*` followed by `([\s\S]+)`: the capture is everything
after the greedy (backtracked so that at least one character remains)
whitespace run. -/
def bodyCapAt (rest : Str) : Nat → Option Str
  | 0 => if rest.isEmpty then none else some rest
  | Nat.succ k =>
    if (rest.drop (k + 1)).isEmpty then bodyCapAt rest k
    else some (rest.drop (k + 1))

/-- Leftmost match of `/BODY:\s*([\s\S]+)/i`, returning the capture. -/
def bodyCapture : Str → Option Str
  | [] => none
  | c :: cs =>
    if startsWithCI ("body:".toList) (c :: cs) then
      match bodyCapAt ((c :: cs).drop 5) (((c :: cs).drop 5).takeWhile isJsWs).length with
      | some cap => some cap
      | none => bodyCapture cs
    else bodyCapture cs

structure PRDraft where
  title : Str
  body : Str
deriving DecidableEq

/-- Join a list of strings with a separator string (JS `Array.prototype.join`). -/
def joinSepStr (sep : Str) : List Str → Str
  | [] => []
  | [x] => x
  | x :: y :: t => x ++ sep ++ joinSepStr sep (y :: t)

/-- `parsePRDescription`: both markers found → their captures; otherwise first
non-blank line as title, remaining non-blank lines joined as body, with the
source's textual defaults. -/
def parsePRDescription (response : Str) : PRDraft :=
  match titleCapture response, bodyCapture response with
  | some t, some b => { title := stripMarkdown (jsTrim t), body := jsTrim b }
  | _, _ =>
    let lines := (splitOnChar '\n' response).filter (fun l => !(jsTrim l).isEmpty)
    { title := stripMarkdown (match lines.head? with
        | some h => h
        | none => "Update".toList),
      body :=
        match joinSepStr ['\n'] lines.tail with
        | [] => "Pull request description".toList
        | joined => joined }

/-- One commit handed to the PR pipeline (hash, message, author, date). -/
structure CommitInfo where
  hash : Str
  message : Str
  author : Str
  date : Str
deriving DecidableEq

/-- `generateSmartFallback`: deterministic PR draft built from the commit list
and optional issue context. -/
def generateSmartFallback (commits : List CommitInfo) (issueContext : Str) : PRDraft :=
  let title := match commits with
    | [] => "Update".toList
    | c :: _ => if c.message.isEmpty then "Update".toList else c.message
  let features := commits.filter (fun c => "feat".toList.isPrefixOf c.message)
  let fixes := commits.filter (fun c => "fix".toList.isPrefixOf c.message)
  let chores := commits.filter (fun c => "chore".toList.isPrefixOf c.message)
  let others := commits.filter (fun c =>
    !("feat".toList.isPrefixOf c.message || "fix".toList.isPrefixOf c.message ||
      "chore".toList.isPrefixOf c.message))
  let body1 := "## Summary\n\n".toList
  let body2 :=
    if commits.length == 1 then
      body1 ++ (match commits with | c :: _ => c.message | [] => [])
    else
      body1 ++ "This PR includes ".toList ++ (Nat.repr commits.length).toList ++
        " commits with ".toList ++
        (let types :=
          (if features.length != 0 then
            [(Nat.repr features.length).toList ++ " feature(s)".toList] else []) ++
          (if fixes.length != 0 then
            [(Nat.repr fixes.length).toList ++ " fix(es)".toList] else []) ++
          (if chores.length != 0 then
            [(Nat.repr chores.length).toList ++ " chore(s)".toList] else [])
        match joinSepStr ", ".toList types with
        | [] => "various changes".toList
        | joined => joined) ++
        ".".toList
  let body3 := body2 ++ "\n\n## Changes\n\n".toList
  let body4 := body3 ++
    (if features.length != 0 then
      "### Features\n".toList ++
        (features.map (fun c => "- ".toList ++ c.message ++ ['\n'])).flatten ++ ['\n']
    else [])
  let body5 := body4 ++
    (if fixes.length != 0 then
      "### Fixes\n".toList ++
        (fixes.map (fun c => "- ".toList ++ c.message ++ ['\n'])).flatten ++ ['\n']
    else [])
  let body6 := body5 ++
    (if chores.length != 0 then
      "### Chores\n".toList ++
        (chores.map (fun c => "- ".toList ++ c.message ++ ['\n'])).flatten ++ ['\n']
    else [])
  let body7 := body6 ++
    (if others.length != 0 then
      "### Other Changes\n".toList ++
        (others.map (fun c => "- ".toList ++ c.message ++ ['\n'])).flatten ++ ['\n']
    else [])
  let body8 := body7 ++
    (if issueContext.isEmpty then [] else ['\n'] ++ issueContext ++ ['\n'])
  let body9 := body8 ++ "\n## Testing\n\nPlease test these changes in your environment.\n".toList
  { title := title, body := body9 }

/-- `generatePRDescription`, with the quota-retry outcome as a parameter: a
parsed draft is accepted only when title and body are non-empty (JS
truthiness) and the body is longer than 50 characters. -/
def generatePRDescription (o : InvocationResult) (commits : List CommitInfo)
    (issueContext : Str) : PRDraft :=
  match o with
  | .failure _ => generateSmartFallback commits issueContext
  | .success out =>
    let parsed := parsePRDescription out
    if parsed.title ≠ [] ∧ parsed.body ≠ [] ∧ parsed.body.length > 50 then parsed
    else generateSmartFallback commits issueContext

/-- Replace each maximal run of characters satisfying `p` by a single `r`
(models `replace(/X+/g, '-')`); the flag records whether the previous
character belonged to the current run. -/
def runsToChar (p : Char → Bool) (r : Char) : Bool → Str → Str
  | _, [] => []
  | inRun, c :: cs =>
    if p c then
      if inRun then runsToChar p r true cs
      else r :: runsToChar p r true cs
    else c :: runsToChar p r false cs

/-- The branch-name character class `[a-z0-9-]`. -/
def branchClass (c : Char) : Bool :=
  (decide ('a' ≤ c) && decide (c ≤ 'z')) ||
  (decide ('0' ≤ c) && decide (c ≤ '9')) || c == '-'

/-- Drop one leading hyphen (one half of `replace(/^-|-$/g, '')`). -/
def dropOneLeadHyphen : Str → Str
  | [] => []
  | c :: t => if c = '-' then t else c :: t

/-- `replace(/^-|-$/g, '')`: remove one leading and one trailing hyphen (the
trailing removal is performed on the reversed string). -/
def trimEdgeHyphens (s : Str) : Str :=
  (dropOneLeadHyphen (dropOneLeadHyphen s).reverse).reverse

/-- The sanitize pipeline of `sanitizeBranchName`: lowercase, turn every
character outside `[a-z0-9-]` into `-`, collapse hyphen runs, trim one hyphen
from each edge. -/
def sanitizeSlug (name : Str) : Str :=
  trimEdgeHyphens (runsToChar (fun c => c == '-') '-' false
    ((name.map Char.toLower).map (fun c => if branchClass c then c else '-')))

/-- The kebab-case pipeline of `generateFallbackBranchName`: lowercase, delete
characters outside `[a-z0-9\s-]`, replace whitespace runs by single hyphens,
collapse hyphen runs, trim one hyphen from each edge. -/
def kebabSlug (d : Str) : Str :=
  trimEdgeHyphens (runsToChar (fun c => c == '-') '-' false
    (runsToChar isJsWs '-' false
      ((d.map Char.toLower).filter (fun c => branchClass c || isJsWs c))))

/-- The `maxLength` truncation: when the slug exceeds the budget, JS
`substring(0, maxLength)` (clamping a negative bound to 0) followed by the
removal of one trailing hyphen (the dollar-anchored hyphen replace). -/
def limitSlug (maxLength : Int) (name : Str) : Str :=
  if (name.length : Int) > maxLength then
    (dropOneLeadHyphen (name.take maxLength.toNat).reverse).reverse
  else name

/-- Strip a leading `"{type}/"` echoed back by the generator
(`replace(new RegExp('^' + type + '/', 'i'), '')`), then sanitize. -/
def sanitizeCoreOf (name ty : Str) : Str :=
  sanitizeSlug (if startsWithCI (ty ++ ['/']) name then name.drop (ty.length + 1) else name)

/-- `sanitizeBranchName(name, type, issuePrefixString)`. -/
def sanitizeBranchName (name ty ipre : Str) : Str :=
  ty ++ '/' :: (ipre ++
    limitSlug ((50 : Int) - ty.length - ipre.length - 1) (sanitizeCoreOf name ty))

/-- `issueNumber ? issueNumber + '-' : ''`. -/
def issuePreOf : Option Str → Str
  | none => []
  | some n => n ++ ['-']

/-- `generateFallbackBranchName(description, type, issueNumber)`. -/
def generateFallbackBranchName (description ty : Str) (issueNumber : Option Str) : Str :=
  ty ++ '/' :: (issuePreOf issueNumber ++
    limitSlug ((50 : Int) - ty.length - (issuePreOf issueNumber).length - 1)
      (kebabSlug description))

/-- Models `replace(/```/g, '')`: leftmost, non-overlapping removal of triple
backticks. -/
def eraseTripleTick : Str → Str
  | c1 :: c2 :: c3 :: rest2 =>
    if c1 == Char.ofNat 96 && c2 == Char.ofNat 96 && c3 == Char.ofNat 96 then
      eraseTripleTick rest2
    else c1 :: eraseTripleTick (c2 :: c3 :: rest2)
  | [c1, c2] => [c1, c2]
  | [c1] => [c1]
  | [] => []

/-- `replace(/^["']|["']$/g, '')`: remove one leading and one trailing quote
character (double or single). -/
def stripOuterQuotes (s : Str) : Str :=
  let s1 := match s with
    | c :: t => if c == Char.ofNat 34 || c == Char.ofNat 39 then t else c :: t
    | [] => []
  match s1.reverse with
  | c :: t => if c == Char.ofNat 34 || c == Char.ofNat 39 then t.reverse else s1
  | [] => s1

/-- `generateBranchName`, with the pipeline outcome as a parameter: first line
of the trimmed response, code fences and backticks removed, surrounding quotes
removed, then `sanitizeBranchName`; any pipeline failure falls back to
`generateFallbackBranchName`. -/
def generateBranchName (o : InvocationResult) (description ty : Str)
    (issueNumber : Option Str) : Str :=
  match o with
  | .failure _ => generateFallbackBranchName description ty issueNumber
  | .success out =>
    let line1 := jsTrim (match splitOnChar '\n' (jsTrim out) with
      | h :: _ => h
      | [] => [])
    let b1 := jsTrim (eraseChar (Char.ofNat 96) (eraseTripleTick line1))
    let b2 := stripOuterQuotes b1
    sanitizeBranchName b2 ty (issuePreOf issueNumber)

/-- First character is a hyphen. -/
def headIsHyph : Str → Bool
  | [] => false
  | c :: _ => c == '-'

/-- Last character is a hyphen. -/
def lastIsHyph : Str → Bool
  | [] => false
  | [c] => c == '-'
  | _ :: c :: t => lastIsHyph (c :: t)

/-- Does the string contain two adjacent hyphens? -/
def hasDD : Str → Bool
  | [] => false
  | c :: cs => (c == '-' && headIsHyph cs) || hasDD cs

/-- The five branch types quantified over by the spec. -/
def allowedBranchTypes : List Str :=
  ["feature", "fix", "chore", "docs", "refactor"].map String.toList

/-- `/^[a-z0-9-]+\/(?:\d+-)?[a-z0-9-]+$/` as a total matcher.  `\d` and `-`
both lie inside `[a-z0-9-]`, so (with backtracking) the optional issue group
is absorbed by the final `[a-z0-9-]+`: the language is a non-empty class run,
one `/`, and a non-empty class run extending to the end. -/
def branchRegexMatch (s : Str) : Bool :=
  match s.drop (s.takeWhile branchClass).length with
  | '/' :: b => !(s.takeWhile branchClass).isEmpty && !b.isEmpty && b.all branchClass
  | _ => false

/-- The invariant bundle claimed for generated branch names: conceptual regex
match, total length at most 50, no double hyphen, and a non-empty slug that
neither starts nor ends with a hyphen. -/
def branchOK (ty ipre s : Str) : Prop :=
  branchRegexMatch s = true ∧ s.length ≤ 50 ∧ hasDD s = false ∧
  ∃ slug, s = ty ++ '/' :: (ipre ++ slug) ∧ slug ≠ [] ∧
    headIsHyph slug = false ∧ lastIsHyph slug = false

/-- Character class `[a-zA-Z0-9]`. -/
def isAlnum (c : Char) : Bool := c.isAlpha || c.isDigit

/-- Character class `[a-zA-Z0-9_]`. -/
def isAlnumU (c : Char) : Bool := isAlnum c || c == '_'

/-- One alternative of the credential pattern: literal prefix `pre` followed by
a non-empty greedy run of `cls` characters.  Returns the matched length. -/
def matchTok (pre : Str) (cls : Char → Bool) (s : Str) : Option Nat :=
  if pre.isPrefixOf s then
    (if ((s.drop pre.length).takeWhile cls).length > 0 then
      some (pre.length + ((s.drop pre.length).takeWhile cls).length)
    else none)
  else none

/-- The alternation `ghp_[a-zA-Z0-9]+|gho_[a-zA-Z0-9]+|github_pat_[a-zA-Z0-9_]+`
tried at the head of `s`; the literal heads are mutually exclusive, so at most
one alternative matches. -/
def tokenAt (s : Str) : Option Nat :=
  match matchTok ("ghp_".toList) isAlnum s with
  | some n => some n
  | none =>
    match matchTok ("gho_".toList) isAlnum s with
    | some n => some n
    | none => matchTok ("github_pat_".toList) isAlnumU s

/-- Fuel-indexed worker for the global credential replace: at each position a
token match is replaced by `***` and the scan resumes after it.  The fuel is
the string length; every token match consumes at least 5 characters, so the
fuel never runs out on the initial call. -/
def redactTokensF : Nat → Str → Str
  | _, [] => []
  | 0, s => s
  | Nat.succ f, c :: cs =>
    match tokenAt (c :: cs) with
    | some n => '*' :: '*' :: '*' :: redactTokensF f ((c :: cs).drop n)
    | none => c :: redactTokensF f cs

/-- The global replace of credential-like tokens by `***` performed on log
error lines. -/
def redactTokens (s : Str) : Str := redactTokensF s.length s

/-- Does any suffix of the string begin with a credential token? -/
def containsTokenStart : Str → Bool
  | [] => false
  | c :: cs => (tokenAt (c :: cs)).isSome || containsTokenStart cs

/-- The failure signals of one `execFile` rejection, as consumed by the catch
branch of `execCopilotPrompt`: trimmed stderr text, the buffer-overflow code,
the kill flag of a timeout, and the display text of `status ?? code` (none
when that value is falsy, rendered as `unknown`). -/
structure RawExecError where
  stderr : Str
  maxBufferExceeded : Bool
  killed : Bool
  exitCodeText : Option Str
deriving DecidableEq

/-- The sensitive-keyword test `/token|auth|key|secret|password/i`. -/
def copilotKeywordTest (s : Str) : Bool :=
  containsCI ("token".toList) s || containsCI ("auth".toList) s ||
  containsCI ("key".toList) s || containsCI ("secret".toList) s ||
  containsCI ("password".toList) s

/-- The generic replacement text used when stderr is unusable. -/
def genericAuthMessage (e : RawExecError) : Str :=
  "exit code ".toList ++
    (match e.exitCodeText with
     | some t => t
     | none => "unknown".toList) ++
  ". Check copilot auth: run \"copilot auth login\"".toList

/-- The message construction of `execCopilotPrompt`'s catch branch, with the
result of `readLatestCopilotLog` supplied as `logDiag`: buffer overflow and
timeout have fixed texts; with empty stderr a log diagnostic is surfaced
verbatim; otherwise stderr is surfaced only when non-empty, shorter than 200
characters and free of sensitive keywords, else the generic text. -/
def execCopilotError (e : RawExecError) (logDiag : Option Str) : Str :=
  if e.maxBufferExceeded then "Copilot response exceeded buffer size".toList
  else if e.killed then
    "Copilot request timed out (60s). Try a faster model like gpt-4.1 or claude-haiku-4.5".toList
  else if (jsTrim e.stderr).isEmpty && logDiag.isSome then
    logDiag.getD []
  else
    "Copilot CLI error: ".toList ++
      (if !(jsTrim e.stderr).isEmpty && decide ((jsTrim e.stderr).length < 200) &&
          !copilotKeywordTest (jsTrim e.stderr)
       then jsTrim e.stderr else genericAuthMessage e)

/-- Greedy `.*` before the `[ERROR]` tag: the largest position `q` at which
`"[ERROR]"` occurs with only `.`-matchable characters before it. -/
def greedyTag : Str → Option Nat
  | [] => none
  | c :: cs =>
    match (if isLineTerm c then none else (greedyTag cs).map (fun q => q + 1)) with
    | some q => some q
    | none => if "[ERROR]".toList.isPrefixOf (c :: cs) then some 0 else none

/-- The one-shot replace removing everything through the last reachable
`[ERROR]` tag and the following whitespace run (the dot-star/ERROR-tag
replace of `readLatestCopilotLog`); at the leftmost start with a reachable
tag, the prefix there through the tag and trailing whitespace is deleted. -/
def replaceErrorTag : Str → Str
  | [] => []
  | c :: cs =>
    match greedyTag (c :: cs) with
    | some q =>
      ((c :: cs).drop (q + 7)).drop (((c :: cs).drop (q + 7)).takeWhile isJsWs).length
    | none => c :: replaceErrorTag cs

/-- The processed error lines of a log file: lines containing `[ERROR]`,
with everything through the tag removed and trimmed, blanks dropped. -/
def errLinesOf (content : Str) : List Str :=
  (((splitOnChar '\n' content).filter
      (fun l => containsSub ("[ERROR]".toList) l)).map
    (fun l => jsTrim (replaceErrorTag l))).filter (fun l => !l.isEmpty)

/-- Leftmost match of the three-digit-then-trailing-whitespace status pattern
(three digits, then only whitespace to the end of the string). -/
def statusAtEnd : Str → Option Str
  | [] => none
  | c :: cs =>
    if c.isDigit && (cs.take 2).length == 2 && (cs.take 2).all Char.isDigit &&
        (cs.drop 2).all isJsWs then
      some (c :: cs.take 2)
    else statusAtEnd cs

/-- The specialized diagnostic for a `failed to list models` error line. -/
def modelLoadDiag (modelError : Str) : Str :=
  match statusAtEnd modelError with
  | some st =>
    if st = "403".toList then
      "Copilot access denied (403). Your subscription may have expired or your authentication needs refreshing. Run: copilot auth login".toList
    else if st = "401".toList then
      "Copilot authentication failed (401). Run: copilot auth login".toList
    else "Copilot model loading failed: ".toList ++ modelError
  | none => "Copilot model loading failed: ".toList ++ modelError

/-- The pure diagnostic extraction from the newest log file's content. -/
def extractLogDiag (content : Str) : Option Str :=
  if (errLinesOf content).isEmpty then none
  else
    match (errLinesOf content).find?
        (fun l => containsCI ("failed to list models".toList) l) with
    | some me => some (modelLoadDiag me)
    | none =>
      match (errLinesOf content).getLast? with
      | some last =>
        if (redactTokens last).length < 200 then some (redactTokens last) else none
      | none => none

/-- JS default string comparison (code-unit lexicographic order). -/
def strLe : Str → Str → Bool
  | [], _ => true
  | _ :: _, [] => false
  | a :: as, b :: bs => decide (a < b) || (a == b && strLe as bs)

/-- A `process-*.log` file name. -/
def goodLogName (f : Str) : Bool :=
  "process-".toList.isPrefixOf f && ".log".toList.isSuffixOf f

/-- Stable insertion of `x` into an already sorted list. -/
def insertLe (le : Str → Str → Bool) (x : Str) : List Str → List Str
  | [] => [x]
  | y :: ys => if le x y then x :: y :: ys else y :: insertLe le x ys

/-- Stable comparison sort (models `Array.prototype.sort`, which is stable and
orders by the comparator — here the default code-unit order `strLe`). -/
def insertionSort (le : Str → Str → Bool) : List Str → List Str
  | [] => []
  | x :: xs => insertLe le x (insertionSort le xs)

/-- File selection of `readLatestCopilotLog`: filter, sort (timestamp-encoding
names, lexicographic), reverse, take the first. -/
def logFileOf (entries : List (Str × Str)) : Option Str :=
  ((insertionSort strLe ((entries.map Prod.fst).filter goodLogName)).reverse).head?

/-- `readLatestCopilotLog`, with the log directory modelled as an optional
list of (file name, content) pairs; `none` stands for a missing or unreadable
directory (any filesystem throw lands in the catch branch, which returns
`undefined`). -/
def readLatestCopilotLog (dirListing : Option (List (Str × Str))) : Option Str :=
  match dirListing with
  | none => none
  | some entries =>
    match logFileOf entries with
    | none => none
    | some f =>
      match entries.find? (fun e => e.1 == f) with
      | none => none
      | some e => extractLogDiag e.2

/-- Scan for the earliest `"(choices:"` (the lazy gap of the model-discovery
regex) whose tail contains a closing parenthesis; the capture is the text
between the greedy whitespace run and the first `)`. -/
def searchChoices : Str → Option Str
  | [] => none
  | c :: cs =>
    if "(choices:".toList.isPrefixOf (c :: cs) then
      (if ((((c :: cs).drop 9).drop
            ((((c :: cs).drop 9).takeWhile isJsWs).length)).dropWhile
          (fun d => d != ')')).isEmpty then
        searchChoices cs
      else
        some ((((c :: cs).drop 9).drop
          ((((c :: cs).drop 9).takeWhile isJsWs).length)).takeWhile
            (fun d => d != ')')))
    else searchChoices cs

/-- One attempt of the model-discovery regex at a given start position:
`--model`, mandatory whitespace, `<model>`, mandatory whitespace, then the
lazy scan for the choices section. -/
def tryModelAt (s : Str) : Option Str :=
  if "--model".toList.isPrefixOf s then
    (if ((s.drop 7).takeWhile isJsWs).length == 0 then none
     else if "<model>".toList.isPrefixOf
         ((s.drop 7).drop ((s.drop 7).takeWhile isJsWs).length) then
       (if ((((s.drop 7).drop ((s.drop 7).takeWhile isJsWs).length).drop
            7).takeWhile isJsWs).length == 0 then none
        else searchChoices
          ((((s.drop 7).drop ((s.drop 7).takeWhile isJsWs).length).drop 7).drop 1))
     else none)
  else none

/-- Leftmost match of the model-discovery regex over the help output. -/
def findChoices : Str → Option Str
  | [] => none
  | c :: cs =>
    match tryModelAt (c :: cs) with
    | some cap => some cap
    | none => findChoices cs

/-- Global scan for quote-delimited non-empty runs (the quoted model ids);
the state holds the reversed characters collected since an opening quote. -/
def extractQuotedAux : Option Str → Str → List Str
  | none, [] => []
  | none, c :: cs =>
    if c == Char.ofNat 34 then extractQuotedAux (some []) cs
    else extractQuotedAux none cs
  | some _, [] => []
  | some acc, c :: cs =>
    if c == Char.ofNat 34 then
      (if acc.isEmpty then extractQuotedAux (some []) cs
       else acc.reverse :: extractQuotedAux none cs)
    else extractQuotedAux (some (c :: acc)) cs

def extractQuoted (s : Str) : List Str := extractQuotedAux none s

structure ModelInfo where
  id : Str
  tag : Str
  description : Str
deriving DecidableEq

/-- `MODEL_CATALOG` as (id, tag, description) rows; the premium-request
multiplier of the source is display-only and not consumed by any modelled
operation. -/
def MODEL_CATALOG : List (Str × Str × Str) := [
  ("gpt-4.1".toList, "Free".toList, "Included with your plan, no extra cost".toList),
  ("gpt-5-mini".toList, "Free".toList, "Included with your plan, fast and lightweight".toList),
  ("claude-haiku-4.5".toList, "Cheap".toList, "Fastest responses, very low cost".toList),
  ("gpt-5.1-codex-mini".toList, "Cheap".toList, "Fast code generation, very low cost".toList),
  ("claude-sonnet-4".toList, "Balanced".toList, "Good quality, standard cost".toList),
  ("claude-sonnet-4.5".toList, "Balanced".toList, "Great quality and speed, recommended".toList),
  ("gpt-5".toList, "Balanced".toList, "Solid all-rounder, standard cost".toList),
  ("gpt-5.1".toList, "Balanced".toList, "Latest GPT, good quality, standard cost".toList),
  ("gpt-5.1-codex".toList, "Balanced".toList, "Optimized for code, standard cost".toList),
  ("gpt-5.1-codex-max".toList, "Balanced".toList, "Max context for code, standard cost".toList),
  ("gpt-5.2".toList, "Balanced".toList, "Newest GPT, standard cost".toList),
  ("gpt-5.2-codex".toList, "Balanced".toList, "Newest GPT for code, standard cost".toList),
  ("gemini-3-pro-preview".toList, "Balanced".toList, "Google model, good for general tasks".toList),
  ("claude-opus-4.5".toList, "Expensive".toList, "Best quality, slowest, costs 3x per prompt".toList)]

def catalogFind (id : Str) : Option (Str × Str) :=
  (MODEL_CATALOG.find? (fun e => e.1 == id)).map (fun e => e.2)

/-- `getFallbackModelIds`: the fixed minimal list. -/
def getFallbackModelIds : List Str :=
  ["claude-sonnet-4.5".toList, "claude-haiku-4.5".toList, "gpt-4.1".toList]

/-- The model-id selection of `fetchAvailableModels`: parsed ids when the
help output yields a non-empty list, else the fallback ids; `none` models a
throw or timeout caught by the source's try/catch. -/
def modelIdsOf (helpOut : Option Str) : List Str :=
  match helpOut with
  | none => getFallbackModelIds
  | some out =>
    match findChoices out with
    | none => getFallbackModelIds
    | some sec =>
      if (extractQuoted sec).length > 0 then extractQuoted sec
      else getFallbackModelIds

/-- Descriptor synthesis: catalog row when known, else the `New` tag. -/
def toModelInfo (id : Str) : ModelInfo :=
  match catalogFind id with
  | some td => { id := id, tag := td.1, description := td.2 }
  | none => { id := id, tag := "New".toList, description := "Recently added model".toList }

/-- `fetchAvailableModels`, with the outcome of running `copilot --help`
supplied as a parameter. -/
def fetchAvailableModels (helpOut : Option Str) : List ModelInfo :=
  (modelIdsOf helpOut).map toModelInfo

/-- Claim C1: for a configured model outside the free-tier set, a primary
failure whose message matches a quota pattern leads to exactly two subprocess
invocations — the primary with the configured model and a single retry with
gpt-4.1 — and the retry's own outcome (success or failure of any kind) is
returned as-is with no further invocation. -/
theorem execWithQuotaRetry_retries_once
    (invoke : Str → InvocationResult) (model e : Str)
    (hfree : model ∉ FREE_MODELS)
    (hfail : invoke model = .failure e)
    (hquota : isQuotaError e = true) :
    execWithQuotaRetry invoke model =
      (invoke FREE_FALLBACK_MODEL, [model, FREE_FALLBACK_MODEL]) := by
  unfold execWithQuotaRetry
  rw [hfail]
  simp [hfree, hquota]

/-- Witness for C1: a stub invoker that always fails with a rate-limit message
and a non-free configured model produce exactly the two-entry trace. -/
theorem execWithQuotaRetry_retries_once_witness :
    execWithQuotaRetry (fun _ => .failure ("rate limit".toList)) ("gpt-5".toList) =
      (.failure ("rate limit".toList), ["gpt-5".toList, "gpt-4.1".toList]) := by
  exact execWithQuotaRetry_retries_once
    (fun _ => .failure ("rate limit".toList)) ("gpt-5".toList) ("rate limit".toList)
    (by decide) rfl (by decide)

/-- Claim C2: if the configured model is free-tier, or the primary failure is
not a quota error, `execWithQuotaRetry` performs exactly one invocation and
propagates that failure unchanged. -/
theorem execWithQuotaRetry_single_invocation
    (invoke : Str → InvocationResult) (model e : Str)
    (hfail : invoke model = .failure e)
    (h : model ∈ FREE_MODELS ∨ isQuotaError e = false) :
    execWithQuotaRetry invoke model = (.failure e, [model]) := by
  unfold execWithQuotaRetry
  rw [hfail]
  by_cases hm : model ∈ FREE_MODELS
  · simp [hm]
  · have hq : isQuotaError e = false := h.resolve_left hm
    simp [hm, hq]

/-- Witness for C2: one invocation both for a free-tier model with an arbitrary
failure and for a non-free model with a non-quota failure. -/
theorem execWithQuotaRetry_single_invocation_witness :
    execWithQuotaRetry (fun _ => .failure ("boom".toList)) ("gpt-4.1".toList) =
      (.failure ("boom".toList), ["gpt-4.1".toList]) ∧
    execWithQuotaRetry (fun _ => .failure ("generic trouble".toList)) ("gpt-5".toList) =
      (.failure ("generic trouble".toList), ["gpt-5".toList]) := by
  constructor
  · exact execWithQuotaRetry_single_invocation
      (fun _ => .failure ("boom".toList)) ("gpt-4.1".toList) ("boom".toList)
      rfl (Or.inl (by decide))
  · exact execWithQuotaRetry_single_invocation
      (fun _ => .failure ("generic trouble".toList)) ("gpt-5".toList) ("generic trouble".toList)
      rfl (Or.inr (by decide))

/-- Claim C3: for every prompt and every (non-empty) model identifier, the
argument vector handed to the copilot binary is exactly
`['--model', model, '-s', '--prompt', prompt]`: the prompt is one opaque
element of the vector, so no content of the prompt — backticks, dollar
substitution, quotes, newlines — can change which arguments the external
process receives. -/
theorem buildCopilotArgs_opaque (prompt model : Str) (h : model ≠ []) :
    buildCopilotArgs prompt model =
      ["--model".toList, model, "-s".toList, "--prompt".toList, prompt] := by
  unfold buildCopilotArgs
  simp [h]

/-- Witness for C3: a prompt full of shell metacharacters still lands in a
single argument slot. -/
theorem buildCopilotArgs_opaque_witness :
    buildCopilotArgs ("`rm -rf /` $(evil) \"x\"\ny".toList) ("gpt-5".toList) =
      ["--model".toList, "gpt-5".toList, "-s".toList, "--prompt".toList,
        "`rm -rf /` $(evil) \"x\"\ny".toList] := by
  exact buildCopilotArgs_opaque ("`rm -rf /` $(evil) \"x\"\ny".toList)
    ("gpt-5".toList) (by decide)

/-- Claim C4 counterexample: the claim says every returned commit message is
non-empty, but on tool output `"1. **"` pattern 1 captures `"**"`, markdown
stripping erases it completely, and the resulting singleton list containing
the empty string is returned as-is. -/
theorem generateCommitMessage_empty_entry :
    ¬ (∀ m ∈ generateCommitMessage (.success ("1. **".toList)) [], m ≠ []) := by
  decide

/-- Claim C4 (amended): for every diff (including the empty one) and every
pipeline outcome, `generateCommitMessage` returns a non-empty list of at most
3 strings; on any generation failure, or when the parser yields no matches,
the result is exactly the fallback's 3 template messages parameterized by the
counts of diff lines starting with `+` and `-`.  (The original claim also
required each returned string to be non-empty, which the counterexample
refutes.) -/
theorem generateCommitMessage_total (o : InvocationResult) (diff : Str) :
    generateCommitMessage o diff ≠ [] ∧
    (generateCommitMessage o diff).length ≤ 3 ∧
    (∀ e, o = .failure e → generateCommitMessage o diff = generateFallbackMessages diff) ∧
    (∀ out, o = .success out → parseCommitMessages out = [] →
      generateCommitMessage o diff = generateFallbackMessages diff) ∧
    generateFallbackMessages diff =
      [ "feat: update files (+".toList ++ (Nat.repr (addedCount diff)).toList ++
          " -".toList ++ (Nat.repr (removedCount diff)).toList ++ [')'],
        "fix: improve code quality".toList,
        "chore: update documentation".toList ] := by
  refine ⟨?_, ?_, ?_, ?_, rfl⟩
  · cases o with
    | failure e => simp [generateCommitMessage, generateFallbackMessages]
    | success out =>
      by_cases h : (parseCommitMessages out).length > 0
      · simp only [generateCommitMessage, if_pos h]
        exact List.ne_nil_of_length_pos h
      · simp only [generateCommitMessage, if_neg h]
        simp [generateFallbackMessages]
  · cases o with
    | failure e => simp [generateCommitMessage, generateFallbackMessages]
    | success out =>
      simp only [generateCommitMessage]
      by_cases h : (parseCommitMessages out).length > 0
      · rw [if_pos h]
        unfold parseCommitMessages
        exact List.length_take_le 3 _
      · rw [if_neg h]
        simp [generateFallbackMessages]
  · intro e he
    subst he
    rfl
  · intro out ho hp
    subst ho
    simp [generateCommitMessage, hp]

/-- Witness for the amended C4: a failing pipeline yields exactly the
count-parameterized fallback triple. -/
theorem generateCommitMessage_total_witness :
    generateCommitMessage (.failure ("offline".toList)) ("+a\n-b".toList) =
      generateFallbackMessages ("+a\n-b".toList) := by
  exact (generateCommitMessage_total (.failure ("offline".toList))
    ("+a\n-b".toList)).2.2.1 ("offline".toList) rfl

/-- Claim C7: a parsed draft is accepted exactly when its title is non-empty,
its body is non-empty and the body is strictly longer than 50 characters;
otherwise the smart fallback is returned.  The boundary (50 rejected, 51
accepted) is exercised by the witness. -/
theorem generatePRDescription_threshold (out : Str) (commits : List CommitInfo)
    (ctx : Str) :
    ((parsePRDescription out).title ≠ [] ∧ (parsePRDescription out).body ≠ [] ∧
        (parsePRDescription out).body.length > 50 →
      generatePRDescription (.success out) commits ctx = parsePRDescription out) ∧
    ((parsePRDescription out).body.length ≤ 50 →
      generatePRDescription (.success out) commits ctx =
        generateSmartFallback commits ctx) ∧
    ((parsePRDescription out).title = [] →
      generatePRDescription (.success out) commits ctx =
        generateSmartFallback commits ctx) := by
  refine ⟨fun h => ?_, fun h => ?_, fun h => ?_⟩
  · simp only [generatePRDescription]
    rw [if_pos h]
  · simp only [generatePRDescription]
    rw [if_neg]
    intro hcon
    omega
  · simp only [generatePRDescription]
    rw [if_neg]
    intro hcon
    exact hcon.1 h

/-- Witness for C7 at the body-length boundary: 51 characters accepted, 50
rejected. -/
theorem generatePRDescription_threshold_witness :
    generatePRDescription
        (.success ("TITLE: t\nBODY: ".toList ++ List.replicate 51 'a')) [] [] =
      parsePRDescription ("TITLE: t\nBODY: ".toList ++ List.replicate 51 'a') ∧
    generatePRDescription
        (.success ("TITLE: t\nBODY: ".toList ++ List.replicate 50 'a')) [] [] =
      generateSmartFallback [] [] := by
  constructor
  · exact (generatePRDescription_threshold
      ("TITLE: t\nBODY: ".toList ++ List.replicate 51 'a') [] []).1 (by decide)
  · exact (generatePRDescription_threshold
      ("TITLE: t\nBODY: ".toList ++ List.replicate 50 'a') [] []).2.1 (by decide)

/-- Claim C8 counterexample: in `"xTITLE: hello\nBODY: world"` no line
begins with `TITLE:` (case-insensitively), so the claim as stated demands the
degraded split — title = first non-blank line, body = the remaining lines —
but the source's unanchored regex finds the mid-line marker and returns the
captures `hello`/`world` instead. -/
theorem parsePRDescription_midline_marker :
    (∀ l ∈ splitOnChar '\n' ("xTITLE: hello\nBODY: world".toList),
      startsWithCI ("title:".toList) l = false) ∧
    parsePRDescription ("xTITLE: hello\nBODY: world".toList) ≠
      { title := stripMarkdown ("xTITLE: hello".toList),
        body := "BODY: world".toList } ∧
    parsePRDescription ("xTITLE: hello\nBODY: world".toList) =
      { title := "hello".toList, body := "world".toList } := by
  decide

/-- Claim C8 (amended): `parsePRDescription` searches for the markers
`TITLE:` and `BODY:` anywhere in the response — case-insensitively, leftmost
first, not anchored to line starts and in either order (the source's
unanchored regexes with whitespace backtracking) — rather than for a line
beginning `TITLE:` followed by a subsequent `BODY:` block.  When both
matchers succeed, the draft is the markdown-stripped trimmed title capture
and the trimmed body capture (all the text after `BODY:`); when either
fails, the parse degrades to the first non-blank line (markdown-stripped) as
title and the remaining non-blank lines joined by newlines as body, with the
source's textual defaults for missing pieces. -/
theorem parsePRDescription_markers (response : Str) :
    (∀ t b, titleCapture response = some t → bodyCapture response = some b →
      parsePRDescription response =
        { title := stripMarkdown (jsTrim t), body := jsTrim b }) ∧
    (titleCapture response = none ∨ bodyCapture response = none →
      parsePRDescription response =
        { title := stripMarkdown
            (match ((splitOnChar '\n' response).filter
                (fun l => !(jsTrim l).isEmpty)).head? with
              | some h => h
              | none => "Update".toList),
          body :=
            match joinSepStr ['\n'] ((splitOnChar '\n' response).filter
                (fun l => !(jsTrim l).isEmpty)).tail with
            | [] => "Pull request description".toList
            | joined => joined } ) := by
  constructor
  · intro t b ht hb
    simp only [parsePRDescription, ht, hb]
  · intro h
    rcases htc : titleCapture response with _ | t
    · rcases hbc : bodyCapture response with _ | b
      · simp only [parsePRDescription, htc, hbc]
      · simp only [parsePRDescription, htc, hbc]
    · rcases hbc : bodyCapture response with _ | b
      · simp only [parsePRDescription, htc, hbc]
      · exfalso
        rcases h with h | h
        · rw [htc] at h
          exact Option.noConfusion h
        · rw [hbc] at h
          exact Option.noConfusion h

/-- Witness for C8: one response with both markers, one without either. -/
theorem parsePRDescription_markers_witness :
    parsePRDescription ("TITLE: A\nBODY: B".toList) =
      { title := "A".toList, body := "B".toList } ∧
    parsePRDescription ("hello\nworld".toList) =
      { title := "hello".toList, body := "world".toList } := by
  constructor
  · exact (parsePRDescription_markers ("TITLE: A\nBODY: B".toList)).1
      ("A".toList) ("B".toList) (by decide) (by decide)
  · exact (parsePRDescription_markers ("hello\nworld".toList)).2
      (Or.inl (by decide))

theorem hasDD_cons (c : Char) (l : Str) :
    hasDD (c :: l) = ((c == '-' && headIsHyph l) || hasDD l) := rfl

theorem lastIsHyph_cons2 (c d : Char) (u : Str) :
    lastIsHyph (c :: d :: u) = lastIsHyph (d :: u) := rfl

theorem lastIsHyph_append_single (xs : Str) (c : Char) :
    lastIsHyph (xs ++ [c]) = (c == '-') := by
  induction xs with
  | nil => rfl
  | cons x t ih =>
    cases t with
    | nil => simpa using ih
    | cons y ys => simpa [lastIsHyph_cons2] using ih

theorem lastIsHyph_reverse (l : Str) : lastIsHyph l.reverse = headIsHyph l := by
  cases l with
  | nil => rfl
  | cons c t => rw [List.reverse_cons, lastIsHyph_append_single]; rfl

theorem headIsHyph_reverse (l : Str) : headIsHyph l.reverse = lastIsHyph l := by
  have h := lastIsHyph_reverse l.reverse
  rw [List.reverse_reverse] at h
  exact h.symm

theorem hasDD_append (a b : Str) :
    hasDD (a ++ b) = (hasDD a || (lastIsHyph a && headIsHyph b) || hasDD b) := by
  induction a with
  | nil => simp [hasDD, lastIsHyph]
  | cons c t ih =>
    cases t with
    | nil =>
      show hasDD (c :: b) = _
      rw [hasDD_cons]
      have h1 : hasDD [c] = false := by simp [hasDD, headIsHyph]
      have h2 : lastIsHyph [c] = (c == '-') := rfl
      rw [h1, h2]
      cases c == '-' <;> cases headIsHyph b <;> cases hasDD b <;> simp
    | cons d u =>
      have e1 : hasDD ((c :: d :: u) ++ b) =
          ((c == '-' && (d == '-')) || hasDD ((d :: u) ++ b)) := rfl
      have e2 : hasDD (c :: d :: u) = ((c == '-' && (d == '-')) || hasDD (d :: u)) := rfl
      rw [e1, e2, ih, lastIsHyph_cons2]
      cases c == '-' <;> cases d == '-' <;> cases hasDD (d :: u) <;>
        cases lastIsHyph (d :: u) <;> cases headIsHyph b <;> cases hasDD b <;> simp

theorem hasDD_reverse (l : Str) : hasDD l.reverse = hasDD l := by
  induction l with
  | nil => rfl
  | cons c t ih =>
    rw [List.reverse_cons, hasDD_append, ih, lastIsHyph_reverse]
    have h1 : hasDD [c] = false := by simp [hasDD, headIsHyph]
    have h2 : headIsHyph [c] = (c == '-') := rfl
    rw [h1, h2, hasDD_cons]
    cases c == '-' <;> cases headIsHyph t <;> cases hasDD t <;> simp

theorem dropLead_headIsHyph {w : Str} (h : hasDD w = false) :
    headIsHyph (dropOneLeadHyphen w) = false := by
  cases w with
  | nil => rfl
  | cons c t =>
    simp only [dropOneLeadHyphen]
    by_cases hc : c = '-'
    · rw [if_pos hc]
      subst hc
      rw [hasDD_cons] at h
      simp only [Bool.or_eq_false_iff] at h
      have h1 := h.1
      simpa using h1
    · rw [if_neg hc]
      show (c == '-') = false
      exact beq_eq_false_iff_ne.mpr hc

theorem dropLead_lastIsHyph {w : Str} (h : lastIsHyph w = false) :
    lastIsHyph (dropOneLeadHyphen w) = false := by
  cases w with
  | nil => rfl
  | cons c t =>
    simp only [dropOneLeadHyphen]
    by_cases hc : c = '-'
    · rw [if_pos hc]
      cases t with
      | nil => rfl
      | cons d u => rw [lastIsHyph_cons2] at h; exact h
    · rw [if_neg hc]
      exact h

theorem dropLead_hasDD {w : Str} (h : hasDD w = false) :
    hasDD (dropOneLeadHyphen w) = false := by
  cases w with
  | nil => rfl
  | cons c t =>
    simp only [dropOneLeadHyphen]
    by_cases hc : c = '-'
    · rw [if_pos hc]
      rw [hasDD_cons] at h
      simp only [Bool.or_eq_false_iff] at h
      exact h.2
    · rw [if_neg hc]
      exact h

theorem dropLead_subset (w : Str) : ∀ x ∈ dropOneLeadHyphen w, x ∈ w := by
  intro x hx
  cases w with
  | nil => simp [dropOneLeadHyphen] at hx
  | cons c t =>
    simp only [dropOneLeadHyphen] at hx
    by_cases hc : c = '-'
    · rw [if_pos hc] at hx
      exact List.mem_cons_of_mem c hx
    · rw [if_neg hc] at hx
      exact hx

theorem dropLead_length (w : Str) : (dropOneLeadHyphen w).length ≤ w.length := by
  cases w with
  | nil => exact Nat.le_refl 0
  | cons c t =>
    simp only [dropOneLeadHyphen]
    by_cases hc : c = '-'
    · rw [if_pos hc]
      simp
    · rw [if_neg hc]

theorem headIsHyph_take {l : Str} {n : Nat} (hn : n ≠ 0) :
    headIsHyph (l.take n) = headIsHyph l := by
  cases l with
  | nil => simp
  | cons c t =>
    cases n with
    | zero => exact absurd rfl hn
    | succ m => rfl

theorem hasDD_take {l : Str} (h : hasDD l = false) (n : Nat) :
    hasDD (l.take n) = false := by
  induction l generalizing n with
  | nil => simp [hasDD]
  | cons c t ih =>
    cases n with
    | zero => rfl
    | succ m =>
      rw [List.take_succ_cons, hasDD_cons]
      rw [hasDD_cons] at h
      simp only [Bool.or_eq_false_iff] at h
      have ht := ih h.2 m
      rw [ht]
      cases m with
      | zero => simp [headIsHyph]
      | succ k =>
        rw [headIsHyph_take (Nat.succ_ne_zero k)]
        simp [h.1]

theorem hasDD_of_no_hyphen {l : Str} (h : ∀ c ∈ l, (c == '-') = false) :
    hasDD l = false := by
  induction l with
  | nil => rfl
  | cons c t ih =>
    rw [hasDD_cons]
    have hc := h c (List.mem_cons_self c t)
    simp [hc, ih (fun x hx => h x (List.mem_cons_of_mem c hx))]

theorem lastIsHyph_of_no_hyphen {l : Str} (h : ∀ c ∈ l, (c == '-') = false) :
    lastIsHyph l = false := by
  induction l with
  | nil => rfl
  | cons c t ih =>
    cases t with
    | nil => exact h c (List.mem_cons_self c [])
    | cons d u =>
      rw [lastIsHyph_cons2]
      exact ih (fun x hx => h x (List.mem_cons_of_mem c hx))

theorem runsToChar_mem (p : Char → Bool) (r : Char) (l : Str) :
    ∀ (b : Bool), ∀ x ∈ runsToChar p r b l, x = r ∨ (x ∈ l ∧ p x = false) := by
  induction l with
  | nil => intro b x hx; simp [runsToChar] at hx
  | cons c t ih =>
    intro b x hx
    simp only [runsToChar] at hx
    cases hp : p c with
    | false =>
      rw [hp] at hx
      simp only [Bool.false_eq_true, if_false] at hx
      rcases List.mem_cons.mp hx with h | h
      · right
        exact ⟨by rw [h]; exact List.mem_cons_self c t, by rw [h]; exact hp⟩
      · rcases ih false x h with h' | h'
        · left; exact h'
        · right; exact ⟨List.mem_cons_of_mem c h'.1, h'.2⟩
    | true =>
      rw [hp] at hx
      simp only [if_true] at hx
      cases b with
      | true =>
        rcases ih true x hx with h' | h'
        · left; exact h'
        · right; exact ⟨List.mem_cons_of_mem c h'.1, h'.2⟩
      | false =>
        simp only [Bool.false_eq_true, if_false] at hx
        rcases List.mem_cons.mp hx with h | h
        · left; exact h
        · rcases ih true x h with h' | h'
          · left; exact h'
          · right; exact ⟨List.mem_cons_of_mem c h'.1, h'.2⟩

theorem collapse_ok (l : Str) :
    ∀ (b : Bool),
      hasDD (runsToChar (fun c => c == '-') '-' b l) = false ∧
      (b = true → headIsHyph (runsToChar (fun c => c == '-') '-' b l) = false) := by
  induction l with
  | nil => intro b; exact ⟨rfl, fun _ => rfl⟩
  | cons c t ih =>
    intro b
    simp only [runsToChar]
    by_cases hcc : c = '-'
    · have hp : (c == '-') = true := beq_iff_eq.mpr hcc
      rw [if_pos hp]
      cases b with
      | true =>
        rw [if_pos rfl]
        exact ⟨(ih true).1, fun _ => (ih true).2 rfl⟩
      | false =>
        rw [if_neg (by simp)]
        constructor
        · rw [hasDD_cons]
          simp [(ih true).1, (ih true).2 rfl]
        · intro hb
          exact absurd hb (by simp)
    · have hp : ¬((c == '-') = true) := by simp [hcc]
      rw [if_neg hp]
      constructor
      · rw [hasDD_cons]
        simp [(ih false).1, hcc]
      · intro _
        show (c == '-') = false
        simp [hcc]

theorem trimEdge_ok {s : Str} (h : hasDD s = false) :
    hasDD (trimEdgeHyphens s) = false ∧
    headIsHyph (trimEdgeHyphens s) = false ∧
    lastIsHyph (trimEdgeHyphens s) = false ∧
    (∀ x ∈ trimEdgeHyphens s, x ∈ s) := by
  unfold trimEdgeHyphens
  have hDDu : hasDD (dropOneLeadHyphen s) = false := dropLead_hasDD h
  have hHu : headIsHyph (dropOneLeadHyphen s) = false := dropLead_headIsHyph h
  have hDDur : hasDD (dropOneLeadHyphen s).reverse = false := by
    rw [hasDD_reverse]; exact hDDu
  have hDDy : hasDD (dropOneLeadHyphen (dropOneLeadHyphen s).reverse) = false :=
    dropLead_hasDD hDDur
  have hLy : lastIsHyph (dropOneLeadHyphen (dropOneLeadHyphen s).reverse) = false := by
    apply dropLead_lastIsHyph
    rw [lastIsHyph_reverse]
    exact hHu
  have hHy : headIsHyph (dropOneLeadHyphen (dropOneLeadHyphen s).reverse) = false :=
    dropLead_headIsHyph hDDur
  refine ⟨?_, ?_, ?_, ?_⟩
  · rw [hasDD_reverse]; exact hDDy
  · rw [headIsHyph_reverse]; exact hLy
  · rw [lastIsHyph_reverse]; exact hHy
  · intro x hx
    rw [List.mem_reverse] at hx
    have h1 := dropLead_subset (dropOneLeadHyphen s).reverse x hx
    rw [List.mem_reverse] at h1
    exact dropLead_subset s x h1

theorem limitSlug_ok {Y : Str} {maxLen : Int}
    (hY : Y ≠ []) (hH : headIsHyph Y = false) (hL : lastIsHyph Y = false)
    (hDD : hasDD Y = false) (hmax : 1 ≤ maxLen) :
    limitSlug maxLen Y ≠ [] ∧
    headIsHyph (limitSlug maxLen Y) = false ∧
    lastIsHyph (limitSlug maxLen Y) = false ∧
    hasDD (limitSlug maxLen Y) = false ∧
    (∀ x ∈ limitSlug maxLen Y, x ∈ Y) ∧
    ((limitSlug maxLen Y).length : Int) ≤ maxLen := by
  unfold limitSlug
  by_cases hgt : (Y.length : Int) > maxLen
  · rw [if_pos hgt]
    have hn1 : 1 ≤ maxLen.toNat := by omega
    have hYlen : 0 < Y.length := List.length_pos.mpr hY
    have hTlen : (Y.take maxLen.toNat).length = min maxLen.toNat Y.length :=
      List.length_take _ _
    have hTne : Y.take maxLen.toNat ≠ [] := by
      intro hc
      rw [hc] at hTlen
      simp at hTlen
      omega
    have hHT : headIsHyph (Y.take maxLen.toNat) = false := by
      rw [headIsHyph_take (by omega)]
      exact hH
    have hDDT : hasDD (Y.take maxLen.toNat) = false := hasDD_take hDD _
    have hDDTr : hasDD (Y.take maxLen.toNat).reverse = false := by
      rw [hasDD_reverse]; exact hDDT
    refine ⟨?_, ?_, ?_, ?_, ?_, ?_⟩
    · intro hc
      have h0 : dropOneLeadHyphen (Y.take maxLen.toNat).reverse = [] := by
        have := congrArg List.reverse hc
        rw [List.reverse_reverse] at this
        simpa using this
      rcases hT : (Y.take maxLen.toNat).reverse with _ | ⟨c, tr⟩
      · exact hTne (by simpa using congrArg List.reverse hT)
      · rw [hT] at h0
        simp only [dropOneLeadHyphen] at h0
        by_cases hcc : c = '-'
        · rw [if_pos hcc] at h0
          subst h0
          have : Y.take maxLen.toNat = [c] := by
            have := congrArg List.reverse hT
            rw [List.reverse_reverse] at this
            simpa using this
          rw [this, hcc] at hHT
          simp [headIsHyph] at hHT
        · rw [if_neg hcc] at h0
          exact List.noConfusion h0
    · rw [headIsHyph_reverse]
      apply dropLead_lastIsHyph
      rw [lastIsHyph_reverse]
      exact hHT
    · rw [lastIsHyph_reverse]
      exact dropLead_headIsHyph hDDTr
    · rw [hasDD_reverse]
      exact dropLead_hasDD hDDTr
    · intro x hx
      rw [List.mem_reverse] at hx
      have h1 := dropLead_subset (Y.take maxLen.toNat).reverse x hx
      rw [List.mem_reverse] at h1
      exact List.take_subset _ _ h1
    · have h1 : ((dropOneLeadHyphen (Y.take maxLen.toNat).reverse).reverse).length ≤
          (Y.take maxLen.toNat).length := by
        rw [List.length_reverse]
        calc (dropOneLeadHyphen (Y.take maxLen.toNat).reverse).length
            ≤ (Y.take maxLen.toNat).reverse.length := dropLead_length _
          _ = (Y.take maxLen.toNat).length := List.length_reverse _
      rw [hTlen] at h1
      omega
  · rw [if_neg hgt]
    exact ⟨hY, hH, hL, hDD, fun x hx => hx, by omega⟩

theorem takeWhile_append_stop {q : Char → Bool} {a : Str} {c : Char} {b : Str}
    (ha : ∀ x ∈ a, q x = true) (hc : q c = false) :
    (a ++ c :: b).takeWhile q = a := by
  induction a with
  | nil => simp [List.takeWhile_cons, hc]
  | cons x t ih =>
    rw [List.cons_append, List.takeWhile_cons, ha x (List.mem_cons_self x t)]
    simp only [if_true]
    rw [ih (fun y hy => ha y (List.mem_cons_of_mem x hy))]

theorem digit_branchClass {c : Char} (h : c.isDigit = true) : branchClass c = true := by
  simp only [Char.isDigit, Bool.and_eq_true, decide_eq_true_eq] at h
  simp only [branchClass, Bool.or_eq_true, Bool.and_eq_true, decide_eq_true_eq]
  exact Or.inl (Or.inr ⟨h.1, h.2⟩)

theorem digit_ne_hyphen {c : Char} (h : c.isDigit = true) : (c == '-') = false := by
  simp only [Char.isDigit, Bool.and_eq_true, decide_eq_true_eq] at h
  have : c ≠ '-' := by
    intro he
    subst he
    exact absurd h.1 (by decide)
  simpa using this

theorem branch_parts_ok {ty ipre slug : Str}
    (hty : ty ∈ allowedBranchTypes)
    (hpre : ipre = [] ∨ ∃ n, n ≠ [] ∧ (∀ c ∈ n, c.isDigit = true) ∧ ipre = n ++ ['-'])
    (hne : slug ≠ [])
    (hcls : ∀ x ∈ slug, branchClass x = true)
    (hH : headIsHyph slug = false)
    (hL : lastIsHyph slug = false)
    (hDD : hasDD slug = false)
    (hlen : (slug.length : Int) ≤ 50 - ty.length - ipre.length - 1) :
    branchOK ty ipre (ty ++ '/' :: (ipre ++ slug)) := by
  have htyF : ty ≠ [] ∧ (∀ x ∈ ty, branchClass x = true) ∧ hasDD ty = false ∧
      lastIsHyph ty = false := by
    fin_cases hty <;> exact ⟨by decide, by decide, by decide, by decide⟩
  have hpreCls : ∀ x ∈ ipre, branchClass x = true := by
    rcases hpre with h | ⟨n, _, hdig, hi⟩
    · rw [h]; intro x hx; simp at hx
    · rw [hi]
      intro x hx
      rcases List.mem_append.mp hx with h1 | h1
      · exact digit_branchClass (hdig x h1)
      · simp at h1
        rw [h1]
        decide
  have hpreDD : hasDD ipre = false := by
    rcases hpre with h | ⟨n, _, hdig, hi⟩
    · rw [h]; rfl
    · rw [hi, hasDD_append]
      have h1 : hasDD n = false :=
        hasDD_of_no_hyphen (fun c hc => digit_ne_hyphen (hdig c hc))
      have h2 : lastIsHyph n = false :=
        lastIsHyph_of_no_hyphen (fun c hc => digit_ne_hyphen (hdig c hc))
      have h3 : hasDD ['-'] = false := by decide
      rw [h1, h2, h3]
      simp
  refine ⟨?_, ?_, ?_, slug, rfl, hne, hH, hL⟩
  · unfold branchRegexMatch
    have h1 : (ty ++ '/' :: (ipre ++ slug)).takeWhile branchClass = ty :=
      takeWhile_append_stop htyF.2.1 (by decide)
    rw [h1]
    have h2 : (ty ++ '/' :: (ipre ++ slug)).drop ty.length = '/' :: (ipre ++ slug) :=
      List.drop_left ty ('/' :: (ipre ++ slug))
    rw [h2]
    have h3 : ty.isEmpty = false := by
      cases hh : ty with
      | nil => exact absurd hh htyF.1
      | cons a b => rfl
    have h4 : (ipre ++ slug).isEmpty = false := by
      cases hh : ipre ++ slug with
      | nil =>
        rcases List.append_eq_nil.mp hh with ⟨-, h5⟩
        exact absurd h5 hne
      | cons a b => rfl
    show (!ty.isEmpty && !(ipre ++ slug).isEmpty && (ipre ++ slug).all branchClass) = true
    rw [h3, h4]
    simp only [Bool.not_false, Bool.true_and]
    rw [List.all_eq_true]
    intro x hx
    rcases List.mem_append.mp hx with h5 | h5
    · exact hpreCls x h5
    · exact hcls x h5
  · have h1 : (ty ++ '/' :: (ipre ++ slug)).length =
        ty.length + 1 + ipre.length + slug.length := by
      simp [List.length_append]
      omega
    rw [h1]
    omega
  · rw [hasDD_append]
    have e1 : hasDD ('/' :: (ipre ++ slug)) = hasDD (ipre ++ slug) := by
      rw [hasDD_cons]
      simp
    have e2 : headIsHyph ('/' :: (ipre ++ slug)) = false := rfl
    rw [e1, e2, hasDD_append, htyF.2.2.1, htyF.2.2.2, hpreDD, hH]
    simp [hDD]

theorem sanitizeSlug_props (name : Str) :
    (∀ x ∈ sanitizeSlug name, branchClass x = true) ∧
    hasDD (sanitizeSlug name) = false ∧
    headIsHyph (sanitizeSlug name) = false ∧
    lastIsHyph (sanitizeSlug name) = false := by
  unfold sanitizeSlug
  have hmcls : ∀ x ∈ (name.map Char.toLower).map
      (fun c => if branchClass c then c else '-'), branchClass x = true := by
    intro x hx
    rcases List.mem_map.mp hx with ⟨y, _, hy⟩
    by_cases hby : branchClass y = true
    · rw [← hy, if_pos hby]; exact hby
    · rw [← hy, if_neg hby]; decide
  have hRdd := (collapse_ok
    ((name.map Char.toLower).map (fun c => if branchClass c then c else '-')) false).1
  have hRcls : ∀ x ∈ runsToChar (fun c => c == '-') '-' false
      ((name.map Char.toLower).map (fun c => if branchClass c then c else '-')),
      branchClass x = true := by
    intro x hx
    rcases runsToChar_mem _ _ _ false x hx with h | h
    · rw [h]; decide
    · exact hmcls x h.1
  have h3 := trimEdge_ok hRdd
  exact ⟨fun x hx => hRcls x (h3.2.2.2 x hx), h3.1, h3.2.1, h3.2.2.1⟩

theorem kebabSlug_props (d : Str) :
    (∀ x ∈ kebabSlug d, branchClass x = true) ∧
    hasDD (kebabSlug d) = false ∧
    headIsHyph (kebabSlug d) = false ∧
    lastIsHyph (kebabSlug d) = false := by
  unfold kebabSlug
  have hfcls : ∀ x ∈ (d.map Char.toLower).filter (fun c => branchClass c || isJsWs c),
      (branchClass x || isJsWs x) = true := by
    intro x hx
    exact (List.mem_filter.mp hx).2
  have hwcls : ∀ x ∈ runsToChar isJsWs '-' false
      ((d.map Char.toLower).filter (fun c => branchClass c || isJsWs c)),
      branchClass x = true := by
    intro x hx
    rcases runsToChar_mem _ _ _ false x hx with h | h
    · rw [h]; decide
    · have h1 := hfcls x h.1
      rcases Bool.or_eq_true_iff.mp h1 with h2 | h2
      · exact h2
      · rw [h.2] at h2
        exact absurd h2 (by simp)
  have hRdd := (collapse_ok
    (runsToChar isJsWs '-' false
      ((d.map Char.toLower).filter (fun c => branchClass c || isJsWs c))) false).1
  have hRcls : ∀ x ∈ runsToChar (fun c => c == '-') '-' false
      (runsToChar isJsWs '-' false
        ((d.map Char.toLower).filter (fun c => branchClass c || isJsWs c))),
      branchClass x = true := by
    intro x hx
    rcases runsToChar_mem _ _ _ false x hx with h | h
    · rw [h]; decide
    · exact hwcls x h.1
  have h3 := trimEdge_ok hRdd
  exact ⟨fun x hx => hRcls x (h3.2.2.2 x hx), h3.1, h3.2.1, h3.2.2.1⟩

/-- Claim C5 counterexample: on the fallback path a description with no
alphanumeric content ("!!!") kebab-cases to the empty slug, so the returned
branch name is `"feature/"`, which fails the claimed pattern
`^[a-z0-9-]+/(?:\d+-)?[a-z0-9-]+$` (the part after the slash must be
non-empty). -/
theorem branchName_empty_slug :
    generateFallbackBranchName ("!!!".toList) ("feature".toList) none =
      "feature/".toList ∧
    branchRegexMatch (generateFallbackBranchName ("!!!".toList)
      ("feature".toList) none) = false := by
  constructor
  · decide
  · decide

/-- Claim C5 (amended): for every description and name, every type in
{feature, fix, chore, docs, refactor} and every optional issue number made of
digits, PROVIDED the sanitized slug is non-empty and the slug budget
`50 - type.length - issuePrefix.length - 1` is at least 1 (true for the five
types whenever the issue number has at most 40 digits), the branch names
produced by `generateFallbackBranchName` and by `sanitizeBranchName` match
the conceptual pattern `^[a-z0-9-]+/(?:\d+-)?[a-z0-9-]+$`, have length ≤ 50,
contain no `--`, and carry a non-empty slug that neither starts nor ends with
`-`; moreover every `generateBranchName` result is of one of these two
shapes.  (The original unconditional claim fails on empty slugs — see the
counterexample.) -/
theorem branchName_invariants (descr name ty : Str) (inum : Option Str)
    (hty : ty ∈ allowedBranchTypes)
    (hnum : ∀ n, inum = some n → n ≠ [] ∧ (∀ c ∈ n, c.isDigit = true))
    (hbudget : 1 ≤ (50 : Int) - ty.length - (issuePreOf inum).length - 1)
    (hk : kebabSlug descr ≠ [])
    (hs : sanitizeCoreOf name ty ≠ []) :
    branchOK ty (issuePreOf inum) (generateFallbackBranchName descr ty inum) ∧
    branchOK ty (issuePreOf inum) (sanitizeBranchName name ty (issuePreOf inum)) ∧
    (∀ o, generateBranchName o descr ty inum = generateFallbackBranchName descr ty inum ∨
      ∃ nm, generateBranchName o descr ty inum = sanitizeBranchName nm ty (issuePreOf inum)) := by
  have hpre : issuePreOf inum = [] ∨
      ∃ n, n ≠ [] ∧ (∀ c ∈ n, c.isDigit = true) ∧ issuePreOf inum = n ++ ['-'] := by
    cases inum with
    | none => left; rfl
    | some n => right; exact ⟨n, (hnum n rfl).1, (hnum n rfl).2, rfl⟩
  refine ⟨?_, ?_, ?_⟩
  · have hp := kebabSlug_props descr
    have hl := limitSlug_ok hk hp.2.2.1 hp.2.2.2 hp.2.1 hbudget
    exact branch_parts_ok hty hpre hl.1
      (fun x hx => hp.1 x (hl.2.2.2.2.1 x hx))
      hl.2.1 hl.2.2.1 hl.2.2.2.1 hl.2.2.2.2.2
  · have hp := sanitizeSlug_props
      (if startsWithCI (ty ++ ['/']) name then name.drop (ty.length + 1) else name)
    have hl := limitSlug_ok hs hp.2.2.1 hp.2.2.2 hp.2.1 hbudget
    exact branch_parts_ok hty hpre hl.1
      (fun x hx => hp.1 x (hl.2.2.2.2.1 x hx))
      hl.2.1 hl.2.2.1 hl.2.2.2.1 hl.2.2.2.2.2
  · intro o
    cases o with
    | failure e => left; rfl
    | success out => right; exact ⟨_, rfl⟩

/-- Witness for the amended C5 at the spec's own scenario: description
"Add User Auth!!", type feature, issue 123 (fallback path), and an AI response
slug on the sanitize path. -/
theorem branchName_invariants_witness :
    branchOK ("feature".toList) (issuePreOf (some ("123".toList)))
      (generateFallbackBranchName ("Add User Auth!!".toList) ("feature".toList)
        (some ("123".toList))) ∧
    branchOK ("feature".toList) (issuePreOf (some ("123".toList)))
      (sanitizeBranchName ("Add-User-Auth".toList) ("feature".toList)
        (issuePreOf (some ("123".toList)))) := by
  have h := branchName_invariants ("Add User Auth!!".toList) ("Add-User-Auth".toList)
    ("feature".toList) (some ("123".toList))
    (by decide)
    (fun n hn => by cases hn; exact ⟨by decide, by decide⟩)
    (by decide)
    (by decide)
    (by decide)
  exact ⟨h.1, h.2.1⟩

theorem containsTokenStart_cons (c : Char) (l : Str) :
    containsTokenStart (c :: l) =
      ((tokenAt (c :: l)).isSome || containsTokenStart l) := rfl

theorem matchTok_isSome_iff {pre : Str} {cls : Char → Bool} {l : Str} :
    (matchTok pre cls l).isSome = true ↔
      ∃ ch t, l = pre ++ ch :: t ∧ cls ch = true := by
  unfold matchTok
  constructor
  · intro h
    by_cases hp : pre.isPrefixOf l = true
    · rw [if_pos hp] at h
      rcases List.isPrefixOf_iff_prefix.mp hp with ⟨rest, hrest⟩
      by_cases hrun : ((l.drop pre.length).takeWhile cls).length > 0
      · have hd : l.drop pre.length = rest := by
          rw [← hrest]
          exact List.drop_left _ _
        rw [hd] at hrun
        cases rest with
        | nil => simp at hrun
        | cons ch t =>
          refine ⟨ch, t, hrest.symm, ?_⟩
          by_cases hch : cls ch = true
          · exact hch
          · rw [List.takeWhile_cons, if_neg hch] at hrun
            simp at hrun
      · rw [if_neg hrun] at h
        simp at h
    · rw [if_neg hp] at h
      simp at h
  · rintro ⟨ch, t, rfl, hch⟩
    have hp : pre.isPrefixOf (pre ++ ch :: t) = true := by
      rw [List.isPrefixOf_iff_prefix]
      exact ⟨ch :: t, rfl⟩
    rw [if_pos hp]
    have hd : (pre ++ ch :: t).drop pre.length = ch :: t := List.drop_left _ _
    rw [hd, List.takeWhile_cons, if_pos hch]
    simp

theorem tokenAt_isSome_or {l : Str} (h : (tokenAt l).isSome = true) :
    (matchTok ("ghp_".toList) isAlnum l).isSome = true ∨
    (matchTok ("gho_".toList) isAlnum l).isSome = true ∨
    (matchTok ("github_pat_".toList) isAlnumU l).isSome = true := by
  unfold tokenAt at h
  cases h1 : matchTok ("ghp_".toList) isAlnum l with
  | some n => left; rfl
  | none =>
    rw [h1] at h
    cases h2 : matchTok ("gho_".toList) isAlnum l with
    | some n => right; left; rfl
    | none =>
      rw [h2] at h
      right; right
      simpa using h

theorem tokenAt_isSome_of_or {l : Str}
    (h : (matchTok ("ghp_".toList) isAlnum l).isSome = true ∨
         (matchTok ("gho_".toList) isAlnum l).isSome = true ∨
         (matchTok ("github_pat_".toList) isAlnumU l).isSome = true) :
    (tokenAt l).isSome = true := by
  unfold tokenAt
  cases h1 : matchTok ("ghp_".toList) isAlnum l with
  | some n => rfl
  | none =>
    cases h2 : matchTok ("gho_".toList) isAlnum l with
    | some n => rfl
    | none =>
      rcases h with h | h | h
      · rw [h1] at h; simp at h
      · rw [h2] at h; simp at h
      · exact h

theorem tokenAt_none_of_head {c : Char} {l : Str} (h : c ≠ 'g') :
    tokenAt (c :: l) = none := by
  have h1 : ∀ (pre2 : Str) (cls : Char → Bool),
      matchTok ('g' :: pre2) cls (c :: l) = none := by
    intro pre2 cls
    unfold matchTok
    rw [if_neg]
    intro hp
    rcases List.isPrefixOf_iff_prefix.mp hp with ⟨rest, hrest⟩
    have hg : 'g' = c := by
      have h2 := congrArg List.head? hrest
      simpa using h2
    exact h hg.symm
  unfold tokenAt
  rw [show ("ghp_".toList) = 'g' :: "hp_".toList from rfl, h1]
  rw [show ("gho_".toList) = 'g' :: "ho_".toList from rfl, h1]
  rw [show ("github_pat_".toList) = 'g' :: "ithub_pat_".toList from rfl, h1]

theorem isAlnum_ne_star {c : Char} (h : isAlnum c = true) : c ≠ '*' := by
  intro he
  subst he
  exact absurd h (by decide)

theorem isAlnumU_ne_star {c : Char} (h : isAlnumU c = true) : c ≠ '*' := by
  intro he
  subst he
  exact absurd h (by decide)

theorem matchTok_le {pre : Str} {cls : Char → Bool} {l : Str} {n : Nat}
    (h : matchTok pre cls l = some n) : pre.length + 1 ≤ n := by
  unfold matchTok at h
  by_cases hp : pre.isPrefixOf l = true
  · rw [if_pos hp] at h
    by_cases hrun : ((l.drop pre.length).takeWhile cls).length > 0
    · rw [if_pos hrun] at h
      have h2 := Option.some.inj h
      omega
    · rw [if_neg hrun] at h
      exact absurd h (by simp)
  · rw [if_neg hp] at h
    exact absurd h (by simp)

theorem tokenAt_pos {l : Str} {n : Nat} (h : tokenAt l = some n) : 1 ≤ n := by
  unfold tokenAt at h
  cases h1 : matchTok ("ghp_".toList) isAlnum l with
  | some m =>
    rw [h1] at h
    have h2 := Option.some.inj h
    have h3 := matchTok_le h1
    omega
  | none =>
    rw [h1] at h
    cases h2 : matchTok ("gho_".toList) isAlnum l with
    | some m =>
      rw [h2] at h
      have h3 := Option.some.inj h
      have h4 := matchTok_le h2
      omega
    | none =>
      rw [h2] at h
      simp only at h
      have h4 := matchTok_le h
      omega

theorem redactF_starfree_prefix :
    ∀ (f : Nat) (cs p rest : Str), cs.length ≤ f →
      redactTokensF f cs = p ++ rest → (∀ c ∈ p, c ≠ '*') →
      ∃ rest2, cs = p ++ rest2 := by
  intro f
  induction f with
  | zero =>
    intro cs p rest hlen heq hsf
    have hcs : cs = [] := by
      cases cs with
      | nil => rfl
      | cons a b => simp at hlen
    subst hcs
    have hp : p = [] := by
      cases p with
      | nil => rfl
      | cons a q => simp [redactTokensF] at heq
    subst hp
    exact ⟨[], rfl⟩
  | succ f ih =>
    intro cs p rest hlen heq hsf
    cases cs with
    | nil =>
      have hp : p = [] := by
        cases p with
        | nil => rfl
        | cons a q => simp [redactTokensF] at heq
      subst hp
      exact ⟨[], rfl⟩
    | cons c cs2 =>
      cases ht : tokenAt (c :: cs2) with
      | some n =>
        simp only [redactTokensF, ht] at heq
        cases p with
        | nil => exact ⟨c :: cs2, rfl⟩
        | cons a q =>
          rw [List.cons_append] at heq
          have ha : '*' = a := (List.cons.inj heq).1
          exact absurd ha.symm (hsf a (List.mem_cons_self a q))
      | none =>
        simp only [redactTokensF, ht] at heq
        cases p with
        | nil => exact ⟨c :: cs2, rfl⟩
        | cons a q =>
          rw [List.cons_append] at heq
          have hac : c = a := (List.cons.inj heq).1
          have htail : redactTokensF f cs2 = q ++ rest := (List.cons.inj heq).2
          have hlen2 : cs2.length ≤ f := by
            simp at hlen
            omega
          rcases ih cs2 q rest hlen2 htail
            (fun x hx => hsf x (List.mem_cons_of_mem a hx)) with ⟨r2, hr⟩
          refine ⟨r2, ?_⟩
          rw [List.cons_append, ← hac, hr]

theorem redact_junction (mid : Str) {f : Nat} {cs2 : Str} {c : Char}
    {cls : Char → Bool} {ch : Char} {t : Str}
    (hlen : cs2.length ≤ f)
    (hmid : ∀ x ∈ mid, x ≠ '*') (hcls : ∀ d, cls d = true → d ≠ '*')
    (heq : c :: redactTokensF f cs2 = (c :: mid) ++ ch :: t) (hch : cls ch = true) :
    ∃ rest2, c :: cs2 = (c :: mid) ++ ch :: rest2 := by
  have hRdec : redactTokensF f cs2 = (mid ++ [ch]) ++ t := by
    have h2 := (List.cons.inj heq).2
    rw [h2]
    simp
  have hsf : ∀ x ∈ mid ++ [ch], x ≠ '*' := by
    intro x hx
    rcases List.mem_append.mp hx with h | h
    · exact hmid x h
    · simp at h
      subst h
      exact hcls x hch
  rcases redactF_starfree_prefix f cs2 (mid ++ [ch]) t hlen hRdec hsf with ⟨r2, hr⟩
  refine ⟨r2, ?_⟩
  rw [List.cons_append, hr]
  simp

theorem redactF_no_token :
    ∀ (f : Nat) (cs : Str), cs.length ≤ f →
      containsTokenStart (redactTokensF f cs) = false := by
  intro f
  induction f with
  | zero =>
    intro cs hlen
    have hcs : cs = [] := by
      cases cs with
      | nil => rfl
      | cons a b => simp at hlen
    subst hcs
    rfl
  | succ f ih =>
    intro cs hlen
    cases cs with
    | nil => rfl
    | cons c cs2 =>
      cases ht : tokenAt (c :: cs2) with
      | some n =>
        simp only [redactTokensF, ht]
        have hn : 1 ≤ n := tokenAt_pos ht
        have hlen2 : ((c :: cs2).drop n).length ≤ f := by
          rw [List.length_drop]
          simp only [List.length_cons]
          simp only [List.length_cons] at hlen
          omega
        have hR := ih _ hlen2
        rw [containsTokenStart_cons, tokenAt_none_of_head (by decide)]
        rw [containsTokenStart_cons, tokenAt_none_of_head (by decide)]
        rw [containsTokenStart_cons, tokenAt_none_of_head (by decide)]
        rw [hR]
        rfl
      | none =>
        simp only [redactTokensF, ht]
        have hR := ih cs2 (by simp at hlen; omega)
        rw [containsTokenStart_cons, hR]
        rcases Bool.eq_false_or_eq_true ((tokenAt (c :: redactTokensF f cs2)).isSome)
          with hx | hx
        case inr =>
          rw [hx]
          rfl
        case inl =>
          exfalso
          have hnone : (tokenAt (c :: cs2)).isSome = false := by
            rw [ht]
            rfl
          rcases tokenAt_isSome_or hx with hm | hm | hm
          · rcases matchTok_isSome_iff.mp hm with ⟨ch, t, heq, hch⟩
            have hc : c = 'g' := by
              have h2 := congrArg List.head? heq
              simpa using h2
            subst hc
            rcases redact_junction ("hp_".toList)
              (by simp at hlen; omega) (by decide)
              (fun d hd => isAlnum_ne_star hd) heq hch with ⟨r2, hr⟩
            have : (matchTok ("ghp_".toList) isAlnum ('g' :: cs2)).isSome = true :=
              matchTok_isSome_iff.mpr ⟨ch, r2, hr, hch⟩
            rw [tokenAt_isSome_of_or (Or.inl this)] at hnone
            exact Bool.noConfusion hnone
          · rcases matchTok_isSome_iff.mp hm with ⟨ch, t, heq, hch⟩
            have hc : c = 'g' := by
              have h2 := congrArg List.head? heq
              simpa using h2
            subst hc
            rcases redact_junction ("ho_".toList)
              (by simp at hlen; omega) (by decide)
              (fun d hd => isAlnum_ne_star hd) heq hch with ⟨r2, hr⟩
            have : (matchTok ("gho_".toList) isAlnum ('g' :: cs2)).isSome = true :=
              matchTok_isSome_iff.mpr ⟨ch, r2, hr, hch⟩
            rw [tokenAt_isSome_of_or (Or.inr (Or.inl this))] at hnone
            exact Bool.noConfusion hnone
          · rcases matchTok_isSome_iff.mp hm with ⟨ch, t, heq, hch⟩
            have hc : c = 'g' := by
              have h2 := congrArg List.head? heq
              simpa using h2
            subst hc
            rcases redact_junction ("ithub_pat_".toList)
              (by simp at hlen; omega) (by decide)
              (fun d hd => isAlnumU_ne_star hd) heq hch with ⟨r2, hr⟩
            have : (matchTok ("github_pat_".toList) isAlnumU ('g' :: cs2)).isSome = true :=
              matchTok_isSome_iff.mpr ⟨ch, r2, hr, hch⟩
            rw [tokenAt_isSome_of_or (Or.inr (Or.inr this))] at hnone
            exact Bool.noConfusion hnone

/-- No credential token survives the redaction of a log error line. -/
theorem redactTokens_no_token (s : Str) :
    containsTokenStart (redactTokens s) = false :=
  redactF_no_token s.length s (Nat.le_refl _)

/-- Claim C6 counterexample: the claim says a credential-like token in the
captured error text is never surfaced, but stderr is only length/keyword
filtered — a short stderr free of the keywords token/auth/key/secret/password
is surfaced verbatim, ghp_ token included (the `***` redaction exists only on
the log-file path). -/
theorem execCopilotError_leaks_stderr_token :
    containsSub ("ghp_abc123abc123abc123".toList)
      (execCopilotError
        { stderr := "denied: ghp_abc123abc123abc123".toList,
          maxBufferExceeded := false, killed := false, exitCodeText := none }
        none) = true := by
  decide

/-- Claim C6 (amended): the surfaced diagnostic is sanitized as follows —
(1) non-empty stderr that is 200 characters or longer, or contains one of the
keywords token/auth/key/secret/password, is replaced by the generic
check-authentication message; (2) with empty stderr the log diagnostic is
surfaced as-is; and (3) when no log error line mentions `failed to list
models`, any diagnostic extracted from the log file is exactly the
`***`-redacted last error line, in which no ghp_/gho_/github_pat_ token
survives.  (The original claim's guarantee that a token inside captured
stderr is never surfaced is refuted by the counterexample; a token inside a
`failed to list models` line is also surfaced unredacted, by the
model-loading branch.) -/
theorem execCopilotError_sanitized (e : RawExecError) (logDiag : Option Str) :
    (e.maxBufferExceeded = false → e.killed = false → jsTrim e.stderr ≠ [] →
      (200 ≤ (jsTrim e.stderr).length ∨ copilotKeywordTest (jsTrim e.stderr) = true) →
      execCopilotError e logDiag =
        "Copilot CLI error: ".toList ++ genericAuthMessage e) ∧
    (e.maxBufferExceeded = false → e.killed = false → jsTrim e.stderr = [] →
      ∀ d, logDiag = some d → execCopilotError e logDiag = d) ∧
    (∀ content last d,
      (errLinesOf content).find?
        (fun l => containsCI ("failed to list models".toList) l) = none →
      (errLinesOf content).getLast? = some last →
      extractLogDiag content = some d →
      d = redactTokens last ∧ containsTokenStart d = false) := by
  refine ⟨?_, ?_, ?_⟩
  · intro hmb hk hne hbad
    unfold execCopilotError
    rw [hmb, hk]
    simp only [Bool.false_eq_true, if_false]
    have hne2 : (jsTrim e.stderr).isEmpty = false := by
      cases hh : jsTrim e.stderr with
      | nil => exact absurd hh hne
      | cons a b => rfl
    rw [hne2]
    simp only [Bool.false_and, Bool.false_eq_true, if_false]
    have hcond : (!false &&
        decide ((jsTrim e.stderr).length < 200) &&
        !copilotKeywordTest (jsTrim e.stderr)) = false := by
      rcases hbad with h | h
      · have : decide ((jsTrim e.stderr).length < 200) = false := by
          simp
          omega
        rw [this]
        simp
      · rw [h]
        simp
    rw [hcond]
    simp
  · intro hmb hk hemp d hd
    unfold execCopilotError
    rw [hmb, hk, hd]
    simp only [Bool.false_eq_true, if_false]
    have hemp2 : (jsTrim e.stderr).isEmpty = true := by
      rw [hemp]
      rfl
    rw [hemp2]
    simp
  · intro content last d hfind hlast hd
    unfold extractLogDiag at hd
    have hne : (errLinesOf content).isEmpty = false := by
      cases hl : errLinesOf content with
      | nil =>
        rw [hl] at hlast
        exact Option.noConfusion hlast
      | cons a b => rfl
    simp only [hne, Bool.false_eq_true, if_false] at hd
    simp only [hfind, hlast] at hd
    by_cases hlen : (redactTokens last).length < 200
    · rw [if_pos hlen] at hd
      have h2 := Option.some.inj hd
      exact ⟨h2.symm, h2 ▸ redactTokens_no_token last⟩
    · rw [if_neg hlen] at hd
      exact Option.noConfusion hd

/-- Witness for the amended C6: keyworded stderr yields the generic message,
and a concrete last-error-line log diagnostic is exactly the redacted line
with the token gone. -/
theorem execCopilotError_sanitized_witness :
    execCopilotError
      { stderr := "auth refused for user".toList,
        maxBufferExceeded := false, killed := false, exitCodeText := none }
      none =
      "Copilot CLI error: ".toList ++ genericAuthMessage
        { stderr := "auth refused for user".toList,
          maxBufferExceeded := false, killed := false, exitCodeText := none } ∧
    ("broken pipe *** here".toList =
        redactTokens ("broken pipe ghp_abc123abc123abc123 here".toList) ∧
      containsTokenStart ("broken pipe *** here".toList) = false) := by
  constructor
  · exact (execCopilotError_sanitized
      { stderr := "auth refused for user".toList,
        maxBufferExceeded := false, killed := false, exitCodeText := none }
      none).1 rfl rfl (by decide) (Or.inr (by decide))
  · exact (execCopilotError_sanitized
      { stderr := "auth refused for user".toList,
        maxBufferExceeded := false, killed := false, exitCodeText := none }
      none).2.2
      ("info\n[ERROR] broken pipe ghp_abc123abc123abc123 here".toList)
      ("broken pipe ghp_abc123abc123abc123 here".toList)
      ("broken pipe *** here".toList)
      (by decide) (by decide) (by decide)

theorem redactTokensF_no_g {f : Nat} :
    ∀ {s : Str}, (∀ c ∈ s, c ≠ 'g') → redactTokensF f s = s := by
  induction f with
  | zero =>
    intro s _
    cases s with
    | nil => rfl
    | cons a b => rfl
  | succ f ih =>
    intro s h
    cases s with
    | nil => rfl
    | cons c cs =>
      have ht : tokenAt (c :: cs) = none :=
        tokenAt_none_of_head (h c (List.mem_cons_self c cs))
      simp only [redactTokensF, ht]
      rw [ih (fun x hx => h x (List.mem_cons_of_mem c hx))]

set_option maxRecDepth 100000 in
/-- Claim C10 counterexample: the claim says the function returns no
diagnostic whenever the sanitized last error line is 200 characters or
longer, but when some error line matches `failed to list models` the
specialized model-loading diagnostic is returned regardless of the last
line's length. -/
theorem readLatestCopilotLog_model_error_overrides :
    readLatestCopilotLog (some [("process-1.log".toList,
        "[ERROR] failed to list models request ended 403\n[ERROR] ".toList ++
          List.replicate 210 'a')]) =
      some ("Copilot access denied (403). Your subscription may have expired or your authentication needs refreshing. Run: copilot auth login".toList) ∧
    (errLinesOf ("[ERROR] failed to list models request ended 403\n[ERROR] ".toList ++
        List.replicate 210 'a')).getLast? = some (List.replicate 210 'a') ∧
    200 ≤ (redactTokens (List.replicate 210 'a')).length := by
  refine ⟨by decide, by decide, ?_⟩
  rw [redactTokens, redactTokensF_no_g, List.length_replicate]
  · omega
  · intro c hc
    rw [List.eq_of_mem_replicate hc]
    decide

/-- Claim C10 (amended): `readLatestCopilotLog` is modelled as a total
function of the directory state, so consulting the log cannot break the error
path; it returns no diagnostic when the directory is missing or unreadable,
when no `process-*.log` files exist, when the newest log has no `[ERROR]`
lines, or when no error line mentions `failed to list models` and the
`***`-redacted last error line is 200 characters or longer.  (The original
claim omitted the `failed to list models` caveat on the last condition — see
the counterexample.) -/
theorem readLatestCopilotLog_safe (dir : Option (List (Str × Str))) :
    readLatestCopilotLog none = none ∧
    (∀ entries, dir = some entries →
      (entries.map Prod.fst).filter goodLogName = [] →
      readLatestCopilotLog dir = none) ∧
    (∀ content,
      (splitOnChar '\n' content).filter
        (fun l => containsSub ("[ERROR]".toList) l) = [] →
      extractLogDiag content = none) ∧
    (∀ content last,
      (errLinesOf content).find?
        (fun l => containsCI ("failed to list models".toList) l) = none →
      (errLinesOf content).getLast? = some last →
      200 ≤ (redactTokens last).length →
      extractLogDiag content = none) := by
  refine ⟨rfl, ?_, ?_, ?_⟩
  · intro entries hd hfil
    subst hd
    have h1 : logFileOf entries = none := by
      unfold logFileOf
      rw [hfil]
      rfl
    show (match logFileOf entries with
      | none => none
      | some f =>
        match entries.find? (fun e => e.1 == f) with
        | none => none
        | some e => extractLogDiag e.2) = none
    rw [h1]
  · intro content hfil
    unfold extractLogDiag errLinesOf
    rw [hfil]
    rfl
  · intro content last hfind hlast hlen
    unfold extractLogDiag
    by_cases hemp : (errLinesOf content).isEmpty = true
    · rw [if_pos hemp]
    · rw [if_neg hemp]
      simp only [hfind, hlast]
      rw [if_neg]
      omega

set_option maxRecDepth 100000 in
/-- Witness for the amended C10: a directory without `process-*.log` files
yields no diagnostic, and so does a log whose only (non-model-loading) error
line redacts to 210 characters. -/
theorem readLatestCopilotLog_safe_witness :
    readLatestCopilotLog (some [("notes.txt".toList, "[ERROR] x".toList)]) = none ∧
    extractLogDiag ("[ERROR] ".toList ++ List.replicate 210 'a') = none := by
  constructor
  · exact (readLatestCopilotLog_safe
      (some [("notes.txt".toList, "[ERROR] x".toList)])).2.1
      [("notes.txt".toList, "[ERROR] x".toList)] rfl (by decide)
  · refine (readLatestCopilotLog_safe none).2.2.2
      ("[ERROR] ".toList ++ List.replicate 210 'a') (List.replicate 210 'a')
      (by decide) (by decide) ?_
    rw [redactTokens, redactTokensF_no_g, List.length_replicate]
    · omega
    · intro c hc
      rw [List.eq_of_mem_replicate hc]
      decide

/-- Claim C9: `fetchAvailableModels` is modelled as a total function of the
help-command outcome (so it cannot throw) and always returns a non-empty
list; on any failure — the help command throwing or timing out (`none`),
the model-choices regex not matching, or no quoted ids inside the choices
section — it returns the descriptors of the fixed fallback list of exactly 3
well-known identifiers; and every identifier missing from the model catalog
is tagged `New`. -/
theorem fetchAvailableModels_spec :
    (∀ h, fetchAvailableModels h ≠ []) ∧
    fetchAvailableModels none =
      [ { id := "claude-sonnet-4.5".toList, tag := "Balanced".toList,
          description := "Great quality and speed, recommended".toList },
        { id := "claude-haiku-4.5".toList, tag := "Cheap".toList,
          description := "Fastest responses, very low cost".toList },
        { id := "gpt-4.1".toList, tag := "Free".toList,
          description := "Included with your plan, no extra cost".toList } ] ∧
    (∀ out, findChoices out = none →
      fetchAvailableModels (some out) = fetchAvailableModels none) ∧
    (∀ out sec, findChoices out = some sec → extractQuoted sec = [] →
      fetchAvailableModels (some out) = fetchAvailableModels none) ∧
    (∀ h m, m ∈ fetchAvailableModels h → catalogFind m.id = none →
      m.tag = "New".toList) := by
  have hids : ∀ h, modelIdsOf h ≠ [] := by
    intro h
    cases h with
    | none => decide
    | some out =>
      simp only [modelIdsOf]
      cases hf : findChoices out with
      | none => decide
      | some sec =>
        show (if (extractQuoted sec).length > 0 then extractQuoted sec
          else getFallbackModelIds) ≠ []
        by_cases hq : (extractQuoted sec).length > 0
        · rw [if_pos hq]
          intro hc
          rw [hc] at hq
          simp at hq
        · rw [if_neg hq]
          decide
  refine ⟨?_, by decide, ?_, ?_, ?_⟩
  · intro h
    unfold fetchAvailableModels
    intro hc
    rw [List.map_eq_nil_iff] at hc
    exact hids h hc
  · intro out hf
    unfold fetchAvailableModels
    congr 1
    simp only [modelIdsOf, hf]
  · intro out sec hf hq
    unfold fetchAvailableModels
    congr 1
    simp only [modelIdsOf, hf, hq]
    simp
  · intro h m hm hcat
    unfold fetchAvailableModels at hm
    rcases List.mem_map.mp hm with ⟨id, hid, hmap⟩
    unfold toModelInfo at hmap
    cases hcf : catalogFind id with
    | some td =>
      rw [hcf] at hmap
      have hmid : m.id = id := by rw [← hmap]
      rw [hmid] at hcat
      rw [hcat] at hcf
      exact Option.noConfusion hcf
    | none =>
      rw [hcf] at hmap
      rw [← hmap]

/-- Witness for C9: unusable help output falls back to the fixed list, which
is non-empty. -/
theorem fetchAvailableModels_spec_witness :
    fetchAvailableModels (some ("garbage".toList)) = fetchAvailableModels none ∧
    fetchAvailableModels none ≠ [] := by
  constructor
  · exact fetchAvailableModels_spec.2.2.1 ("garbage".toList) (by decide)
  · exact fetchAvailableModels_spec.1 none
